import Mathlib

/-!
Shallow embedding of the image-filtering engine in `Filters.js`
(`dave-leeper/filters`).

JavaScript numbers are modelled by `ℚ` (all computations the claims touch are
exact decimal/rational arithmetic, and `Math.round` on `ℚ` is `round`, i.e.
`⌊q + 1/2⌋`, which matches JS round-half-up).  Mutable `Color` objects become
values: each prototype method that mutates `this` and returns it becomes a pure
function returning the updated value; aliasing effects that the claims depend
on (e.g. `MinimalView.getColor` returning a live reference into the pixel
store) are modelled explicitly where they occur.  `null`/`undefined` colors are
`Option Color`.
-/

/-- `isKindaSortaEqual(inValue1, inValue2, inTolerance)`: numeric equality
within a tolerance, exactly the two-sided comparison of the source. -/
def isKindaSortaEqual (inValue1 inValue2 inTolerance : ℚ) : Bool :=
  if inValue1 > inValue2 + inTolerance then false
  else if inValue1 < inValue2 - inTolerance then false
  else true

/-- `xlate255ColorToNormalizedColor`: clamps above at 255, then divides by
255.0.  (No clamp below, as in the source.) -/
def xlate255ColorToNormalizedColor (in255Color : ℚ) : ℚ :=
  (if 255 < in255Color then 255 else in255Color) / 255

/-- `xlateNormalizedColorTo255Color`: clamps to [0,1], multiplies by 255 and
rounds (JS `Math.round` = round half toward +∞ = Lean `round` on `ℚ`). -/
def xlateNormalizedColorTo255Color (inNormalizedColor : ℚ) : ℤ :=
  let c1 := if inNormalizedColor < 0 then 0 else inNormalizedColor
  let c2 := if 1 < c1 then 1 else c1
  round (c2 * 255)

/-- The `Color` object: channel fields `r,g,b` plus opacity `a` (JS numbers,
modelled by `ℚ`), the `transparent` override flag, and the `normalized` mode
tag.  `new Color(r,g,b,a)` sets `transparent := false`, `normalized := false`. -/
structure Color where
  r : ℚ
  g : ℚ
  b : ℚ
  a : ℚ
  transparent : Bool
  normalized : Bool
deriving DecidableEq, Repr

/-- `new Color(r, g, b, a)` with all four arguments supplied (non-null `a`):
`transparent` defaults to `false`, `normalized` starts `false`. -/
def Color.make (r g b a : ℚ) : Color :=
  ⟨r, g, b, a, false, false⟩

/-- `Color.prototype.isEqual(inColor, inTolerance)`: per-channel and alpha
comparison via `isKindaSortaEqual`, plus exact equality of `transparent`. -/
def Color.isEqual (c : Color) (inColor : Color) (tolerance : ℚ) : Bool :=
  isKindaSortaEqual c.r inColor.r tolerance &&
  isKindaSortaEqual c.g inColor.g tolerance &&
  isKindaSortaEqual c.b inColor.b tolerance &&
  isKindaSortaEqual c.a inColor.a tolerance &&
  decide (c.transparent = inColor.transparent)

/-- `Color.prototype.invert`: `r,g,b := 255 - r, 255 - g, 255 - b`
(the source mutates `this`; here the updated value is returned). -/
def Color.invert (c : Color) : Color :=
  { c with r := 255 - c.r, g := 255 - c.g, b := 255 - c.b }

/-- `Color.prototype.grayscale`: luminance `r*0.299 + g*0.587 + b*0.114`,
rounded unless the color is in normalized mode, assigned to all of r,g,b. -/
def Color.grayscale (c : Color) : Color :=
  let fLuminance := c.r * (299/1000) + c.g * (587/1000) + c.b * (114/1000)
  let fLuminance2 := if c.normalized = false then ((round fLuminance : ℤ) : ℚ) else fLuminance
  { c with r := fLuminance2, g := fLuminance2, b := fLuminance2 }

/-- `Color.blendOperation`: the four blend modes. -/
inductive BlendOperation
  | CROSS
  | ADDITIVE
  | ADDITIVE_ALPHA
  | MULTIPLIED
deriving DecidableEq, Repr

/-- `Color.prototype.clamp`: channels clamp below at 0 and above at the mode
maximum (1 for normalized, 255 otherwise); `a` clamps to [0,1]. -/
def Color.clamp (c : Color) : Color :=
  let max : ℚ := if c.normalized then 1 else 255
  let r1 := if c.r < 0 then 0 else c.r
  let g1 := if c.g < 0 then 0 else c.g
  let b1 := if c.b < 0 then 0 else c.b
  let a1 := if c.a < 0 then 0 else c.a
  { c with
    r := if r1 > max then max else r1
    g := if g1 > max then max else g1
    b := if b1 > max then max else b1
    a := if a1 > 1 then 1 else a1 }

/-- `Color.prototype.assignNumber`: sets r, g, b and a to the number. -/
def Color.assignNumber (c : Color) (inNumber : ℚ) : Color :=
  { c with r := inNumber, g := inNumber, b := inNumber, a := inNumber }

/-- `Color.prototype.multiplyNumber`: multiplies r, g, b and a (unclamped). -/
def Color.multiplyNumber (c : Color) (inNumber : ℚ) : Color :=
  { c with r := c.r * inNumber, g := c.g * inNumber,
           b := c.b * inNumber, a := c.a * inNumber }

/-- `Color.prototype.addColor`: element-wise sum on r, g, b, a (unclamped). -/
def Color.addColor (c : Color) (inColor : Color) : Color :=
  { c with r := c.r + inColor.r, g := c.g + inColor.g,
           b := c.b + inColor.b, a := c.a + inColor.a }

/-- `Color.prototype.getNormalizedColor`: a fresh color (so `transparent` is
`false`) whose channels are divided by 255 unless already normalized; `a` is
copied; the `normalized` tag is set. -/
def Color.getNormalizedColor (c : Color) : Color :=
  if c.normalized = false then
    ⟨xlate255ColorToNormalizedColor c.r, xlate255ColorToNormalizedColor c.g,
     xlate255ColorToNormalizedColor c.b, c.a, false, true⟩
  else
    ⟨c.r, c.g, c.b, c.a, false, true⟩

/-- `Color.prototype.get255Color`: a fresh color (so `transparent` is `false`)
whose channels are converted by `xlateNormalizedColorTo255Color` when the
source is normalized, copied verbatim otherwise; `normalized := false`. -/
def Color.get255Color (c : Color) : Color :=
  if c.normalized = false then
    ⟨c.r, c.g, c.b, c.a, false, false⟩
  else
    ⟨((xlateNormalizedColorTo255Color c.r : ℤ) : ℚ),
     ((xlateNormalizedColorTo255Color c.g : ℤ) : ℚ),
     ((xlateNormalizedColorTo255Color c.b : ℤ) : ℚ), c.a, false, false⟩

/-- `Color.prototype.blend(inSourceColor, inBlendOperation)`: both colors are
normalized, combined per mode, clamped above at 1.0 per channel (including
alpha), and the result is written back in 255-mode with `a` left normalized.
`this.transparent` and `this.normalized` are not touched by the method. -/
def Color.blend (c : Color) (inSourceColor : Color) (inBlendOperation : BlendOperation) : Color :=
  let normalizedSource := inSourceColor.getNormalizedColor
  let normalizedThis := c.getNormalizedColor
  let combined : Color :=
    match inBlendOperation with
    | .CROSS =>
        { normalizedThis with
          r := normalizedThis.r * (1 - normalizedSource.a) + normalizedSource.r * normalizedSource.a
          g := normalizedThis.g * (1 - normalizedSource.a) + normalizedSource.g * normalizedSource.a
          b := normalizedThis.b * (1 - normalizedSource.a) + normalizedSource.b * normalizedSource.a
          a := normalizedThis.a * (1 - normalizedSource.a) + normalizedSource.a * normalizedSource.a }
    | .ADDITIVE =>
        { normalizedThis with
          r := normalizedThis.r + normalizedSource.r
          g := normalizedThis.g + normalizedSource.g
          b := normalizedThis.b + normalizedSource.b
          a := normalizedThis.a + normalizedSource.a }
    | .ADDITIVE_ALPHA =>
        { normalizedThis with
          r := normalizedThis.r + normalizedSource.r * normalizedSource.a
          g := normalizedThis.g + normalizedSource.g * normalizedSource.a
          b := normalizedThis.b + normalizedSource.b * normalizedSource.a
          a := normalizedThis.a + normalizedSource.a * normalizedSource.a }
    | .MULTIPLIED =>
        { normalizedThis with
          r := normalizedThis.r * normalizedSource.r
          g := normalizedThis.g * normalizedSource.g
          b := normalizedThis.b * normalizedSource.b
          a := normalizedThis.a * normalizedSource.a }
  let clamped : Color :=
    { combined with
      r := if 1 < combined.r then 1 else combined.r
      g := if 1 < combined.g then 1 else combined.g
      b := if 1 < combined.b then 1 else combined.b
      a := if 1 < combined.a then 1 else combined.a }
  { c with
    r := ((xlateNormalizedColorTo255Color clamped.r : ℤ) : ℚ)
    g := ((xlateNormalizedColorTo255Color clamped.g : ℤ) : ℚ)
    b := ((xlateNormalizedColorTo255Color clamped.b : ℤ) : ℚ)
    a := clamped.a }

/-- `MinimalView`: `width`/`height` fields and a dense row-major store
`colors`, with `colors[y][x]` holding the pixel at `(x, y)`.
`backgroundColor` models the expando property assigned by
`Filters.prototype.translate`/`rotate` (never read by `MinimalView`). -/
structure MinimalView where
  width : ℕ
  height : ℕ
  colors : List (List Color)
  backgroundColor : Option Color := none
deriving DecidableEq, Repr

/-- The `MinimalView(inWidth, inHeight)` constructor: `height` rows of `width`
copies of `new Color(0, 0, 0, 0)` (note `null == 0` is false in JS, so the
alpha really is 0, and `transparent` defaults to `false`). -/
def MinimalView.make (inWidth inHeight : ℕ) : MinimalView :=
  ⟨inWidth, inHeight,
   List.replicate inHeight (List.replicate inWidth (Color.make 0 0 0 0)), none⟩

/-- `MinimalView.prototype.getWidth` (returns the `width` field). -/
def MinimalView.getWidth (v : MinimalView) : ℕ := v.width

/-- `MinimalView.prototype.getHeight` (returns the `height` field). -/
def MinimalView.getHeight (v : MinimalView) : ℕ := v.height

/-- `MinimalView.prototype.getColor(inX, inY)`: `null` when either coordinate
is negative or falls outside the `colors` store, the stored pixel otherwise. -/
def MinimalView.getColor (v : MinimalView) (inX inY : ℤ) : Option Color :=
  if inX < 0 ∨ inY < 0 then none
  else
    match v.colors[inY.toNat]? with
    | none => none
    | some row => row[inX.toNat]?

/-- `MinimalView.prototype.setColor(inX, inY, inColor)`: a no-op when the color
is `null` or the coordinates fall outside the `colors` store; otherwise
replaces the stored pixel. -/
def MinimalView.setColor (v : MinimalView) (inX inY : ℤ) (inColor : Option Color) : MinimalView :=
  match inColor with
  | none => v
  | some c =>
    if inX < 0 ∨ inY < 0 then v
    else
      match v.colors[inY.toNat]? with
      | none => v
      | some row =>
        if inX.toNat < row.length then
          { v with colors := v.colors.set inY.toNat (row.set inX.toNat c) }
        else v

/-- `MinimalView.prototype.fill(inColor)`: `setColor` on every coordinate of
the `getWidth() × getHeight()` range (x outer, y inner).  An absent argument
(JS `undefined`, as in the call `fill()` made by `translate`/`rotate`) is
`none`, and then every `setColor` is a no-op. -/
def MinimalView.fill (v : MinimalView) (inColor : Option Color) : MinimalView :=
  (List.range v.getWidth).foldl
    (fun acc (xLoop : ℕ) =>
      (List.range acc.getHeight).foldl
        (fun acc2 (yLoop : ℕ) => acc2.setColor (xLoop : ℤ) (yLoop : ℤ) inColor) acc)
    v

/-- Well-formedness of a `MinimalView`: the store really is `height` rows of
`width` pixels (true of every view built by the constructor and preserved by
`setColor`). -/
def MinimalView.wf (v : MinimalView) : Prop :=
  v.colors.length = v.height ∧ ∀ row ∈ v.colors, row.length = v.width

instance (v : MinimalView) : Decidable v.wf := by
  unfold MinimalView.wf; infer_instance

/-- The row-major coordinate enumeration `(x, y)` with x outer, y inner, that
the per-pixel filter loops of `Filters.js` traverse. -/
def coordList (w h : ℕ) : List (ℕ × ℕ) :=
  (List.range w).flatMap (fun x => (List.range h).map (fun y => (x, y)))

/-- The shared loop shape of `Filters.prototype.grayscale` and
`Filters.prototype.invert` (`Filters.js` 1438-1461 and 1469-1492): for every
`(iLoop1, iLoop2)` in the source's `getWidth() × getHeight()` range (x outer,
y inner), read `inSourceView.getColor`, skip (with a diagnostic) when null,
apply the mutating `Color` method `f` to the object obtained — since
`MinimalView.getColor` returns a live reference into the pixel store, this
updates the source view's own pixel — and `setColor` the same object into the
destination.  The state is the pair (source view, destination view). -/
def pointMutatingPass (f : Color → Color) (inSourceView inDestinationView : MinimalView) :
    MinimalView × MinimalView :=
  (coordList inSourceView.getWidth inSourceView.getHeight).foldl
    (fun st xy =>
      match st.1.getColor (xy.1 : ℤ) (xy.2 : ℤ) with
      | none => st
      | some oColor =>
        let oColor2 := f oColor
        (st.1.setColor (xy.1 : ℤ) (xy.2 : ℤ) (some oColor2),
         st.2.setColor (xy.1 : ℤ) (xy.2 : ℤ) (some oColor2)))
    (inSourceView, inDestinationView)

/-- `Filters.prototype.grayscale(inSourceView, inDestinationView)`:
`oColor.grayscale()` then `setColor` into the destination; the returned pair
is (source after the call, destination after the call). -/
def Filters.grayscale (inSourceView inDestinationView : MinimalView) :
    MinimalView × MinimalView :=
  pointMutatingPass Color.grayscale inSourceView inDestinationView

/-- `Filters.prototype.invert(inSourceView, inDestinationView)`:
`oColor.invert()` then `setColor` into the destination; the returned pair is
(source after the call, destination after the call). -/
def Filters.invert (inSourceView inDestinationView : MinimalView) :
    MinimalView × MinimalView :=
  pointMutatingPass Color.invert inSourceView inDestinationView

/-- `Filters.prototype.translate(inSourceView, inDestinationView, inOffsetX,
inOffsetY, inFillColor)` (`Filters.js` 1610-1629): assigns
`inDestinationView.backgroundColor = fillColor`, calls `fill()` WITHOUT an
argument (so `MinimalView.fill` receives `undefined` and every inner
`setColor` is a no-op), then writes each source pixel `(x, y)` to
`(x + inOffsetX, y + inOffsetY)` (y outer, x inner); out-of-bounds writes are
no-ops.  The translation does not mutate the colors, only copies references. -/
def Filters.translate (inSourceView inDestinationView : MinimalView)
    (inOffsetX inOffsetY : ℤ) (inFillColor : Color) : MinimalView :=
  let dst0 := { inDestinationView with backgroundColor := some inFillColor }
  let dst1 := dst0.fill none
  (List.range inSourceView.getHeight).foldl
    (fun d (iYLoop : ℕ) =>
      (List.range inSourceView.getWidth).foldl
        (fun d2 (iXLoop : ℕ) =>
          d2.setColor ((iXLoop : ℤ) + inOffsetX) ((iYLoop : ℤ) + inOffsetY)
            (inSourceView.getColor (iXLoop : ℤ) (iYLoop : ℤ)))
        d)
    dst1

/-- `HistogramResult`: four parallel channel-count sequences.  Counts are
naturals (they start at 0 and are only ever incremented or summed by the
operations modelled here). -/
structure HistogramResult where
  red : List ℕ
  green : List ℕ
  blue : List ℕ
  alpha : List ℕ
deriving DecidableEq, Repr

/-- The `HistogramResult()` constructor: each channel is
`new Array(256+1).join('0').split('').map(parseFloat)`.  Joining a 257-slot
empty array inserts 256 separator characters, so the resulting string is 256
copies of `'0'` and each channel list has exactly 256 zero buckets
(indices 0 .. 255). -/
def HistogramResult.init : HistogramResult :=
  ⟨List.replicate 256 0, List.replicate 256 0,
   List.replicate 256 0, List.replicate 256 0⟩

/-- One histogram bucket update `bucket[idx] = bucket[idx] + 1` at a JS-number
index.  When `idx` is a non-negative integer inside the list it increments
that slot; any other index leaves the modelled buckets unchanged (in JS such
an access would touch a NaN-valued expando outside the 256 counting slots,
never one of the buckets). -/
def bucketIncr (bucket : List ℕ) (idx : ℚ) : List ℕ :=
  if 0 ≤ idx.num ∧ idx.den = 1 ∧ idx.num.toNat < bucket.length then
    bucket.set idx.num.toNat (bucket.getD idx.num.toNat 0 + 1)
  else bucket

/-- `Filters.prototype.histogram(inView)` (`Filters.js` 1150-1181): scan the
view (x outer, y inner); null colors are skipped; otherwise increment
`red[r]`, `green[g]`, `blue[b]` and `alpha[Math.round(a * 255)]`. -/
def Filters.histogram (inView : MinimalView) : HistogramResult :=
  (coordList inView.getWidth inView.getHeight).foldl
    (fun h xy =>
      match inView.getColor (xy.1 : ℤ) (xy.2 : ℤ) with
      | none => h
      | some oColor =>
        ⟨bucketIncr h.red oColor.r,
         bucketIncr h.green oColor.g,
         bucketIncr h.blue oColor.b,
         bucketIncr h.alpha ((round (oColor.a * 255) : ℤ) : ℚ)⟩)
    HistogramResult.init

/-- `Filters.prototype.sumHistogram(inHistogram)` (`Filters.js` 1189-1215):
running cumulative sums per channel, written bucket by bucket into a fresh
`HistogramResult`, looping over `inHistogram.red.length` indices. -/
def Filters.sumHistogram (inHistogram : HistogramResult) : HistogramResult :=
  ((List.range inHistogram.red.length).foldl
    (fun st iLoop1 =>
      let redSum := st.1.1 + inHistogram.red.getD iLoop1 0
      let greenSum := st.1.2.1 + inHistogram.green.getD iLoop1 0
      let blueSum := st.1.2.2.1 + inHistogram.blue.getD iLoop1 0
      let alphaSum := st.1.2.2.2 + inHistogram.alpha.getD iLoop1 0
      ((redSum, greenSum, blueSum, alphaSum),
       (⟨st.2.red.set iLoop1 redSum, st.2.green.set iLoop1 greenSum,
         st.2.blue.set iLoop1 blueSum, st.2.alpha.set iLoop1 alphaSum⟩ : HistogramResult)))
    (((0 : ℕ), (0 : ℕ), (0 : ℕ), (0 : ℕ)), HistogramResult.init)).2

/-- The neighbor count of `Filters.prototype.erosion` at `(iXloop, iYLoop)`:
offsets `sYNeighbor, sXNeighbor ∈ {-1,0,1}` (including `(0,0)`, i.e. the pixel
itself), guarded by `0 < iYLoop + sYNeighbor` — which skips the entire
neighbor row at `y = 0` — counting neighbors whose r, g, b match
`inNeighborColor` within the tolerance.  (The source reads the neighbor
unconditionally; for the interior coordinates the loop visits, the neighbor
always exists.) -/
def erosionNeighborCount (inSourceView : MinimalView) (iXloop iYLoop : ℤ)
    (inNeighborColor : Color) (inTolerance : ℚ) : ℕ :=
  ([-1, 0, 1] : List ℤ).foldl
    (fun cnt sYNeighbor =>
      ([-1, 0, 1] : List ℤ).foldl
        (fun cnt2 sXNeighbor =>
          if 0 < iYLoop + sYNeighbor then
            match inSourceView.getColor (iXloop + sXNeighbor) (iYLoop + sYNeighbor) with
            | none => cnt2
            | some oNeighborColor =>
              if isKindaSortaEqual inNeighborColor.r oNeighborColor.r inTolerance
                  && isKindaSortaEqual inNeighborColor.g oNeighborColor.g inTolerance
                  && isKindaSortaEqual inNeighborColor.b oNeighborColor.b inTolerance then
                cnt2 + 1
              else cnt2
          else cnt2)
        cnt)
    0

/-- `Filters.prototype.erosion(inSourceView, inDestinationView, inErosionColor,
inThreshold, inTolerance, inNeighborColor, inReplacementColor)` (`Filters.js`
1738-1770): for interior pixels (y from 1 to height-2 outer, x from 1 to
width-2 inner) copy the source pixel into the destination; if it `isEqual`s
the erosion color within tolerance, count matching neighbors and overwrite the
destination pixel with the replacement color when the count exceeds the
threshold.  (A null source pixel cannot occur at interior coordinates of a
well-formed view; it is modelled as leaving the step's state unchanged.) -/
def Filters.erosion (inSourceView inDestinationView : MinimalView)
    (inErosionColor : Color) (inThreshold : ℚ) (inTolerance : ℚ)
    (inNeighborColor inReplacementColor : Color) : MinimalView :=
  (List.range' 1 (inSourceView.getHeight - 2)).foldl
    (fun d (iYLoop : ℕ) =>
      (List.range' 1 (inSourceView.getWidth - 2)).foldl
        (fun d2 (iXloop : ℕ) =>
          match inSourceView.getColor (iXloop : ℤ) (iYLoop : ℤ) with
          | none => d2
          | some oColor =>
            let d3 := d2.setColor (iXloop : ℤ) (iYLoop : ℤ) (some oColor)
            if oColor.isEqual inErosionColor inTolerance then
              let sCount := erosionNeighborCount inSourceView (iXloop : ℤ) (iYLoop : ℤ)
                inNeighborColor inTolerance
              if (sCount : ℚ) > inThreshold then
                d3.setColor (iXloop : ℤ) (iYLoop : ℤ) (some inReplacementColor)
              else d3
            else d3)
        d)
    inDestinationView

/-- Truncation toward zero, as used by the JS `%` operator. -/
def ratTrunc (q : ℚ) : ℤ :=
  if q < 0 then -⌊-q⌋ else ⌊q⌋

/-- The JS remainder `a % b` on numbers: `a - b * trunc(a / b)` (sign of the
dividend).  `b = 0` would give NaN in JS; it is modelled as 0 and never occurs
in the uses below (the divisor is a view dimension ≥ 1). -/
def jsRem (a b : ℚ) : ℚ :=
  if b = 0 then 0 else a - b * (ratTrunc (a / b) : ℚ)

/-- The inner accumulation of `Filters.prototype.maskFilter` at destination
pixel `(iXLoop, iYLoop)` (`Filters.js` 1801-1818): for each mask entry
(filterX outer, filterY inner) compute
`imageX = Math.round((iXLoop - filterWidth/2 + filterX + width) % width)` (and
likewise `imageY`; note `filterWidth / 2` is FLOAT division in JS), read the
source there, skip null samples (with a diagnostic), accumulate
`channel * mask[filterX][filterY]` into r, g, b, and let alpha be the
last-sampled neighbor's alpha.  Returns `(red, green, blue, alpha)`. -/
def maskFilterSums (inSourceView : MinimalView) (inMask : List (List ℚ))
    (iXLoop iYLoop : ℕ) : ℚ × ℚ × ℚ × ℚ :=
  let filterWidth := (inMask.getD 0 []).length
  let filterHeight := inMask.length
  (List.range filterWidth).foldl
    (fun st (filterX : ℕ) =>
      (List.range filterHeight).foldl
        (fun st2 (filterY : ℕ) =>
          let imageX := round (jsRem ((iXLoop : ℚ) - (filterWidth : ℚ) / 2 + (filterX : ℚ)
            + (inSourceView.width : ℚ)) (inSourceView.width : ℚ))
          let imageY := round (jsRem ((iYLoop : ℚ) - (filterHeight : ℚ) / 2 + (filterY : ℚ)
            + (inSourceView.height : ℚ)) (inSourceView.height : ℚ))
          match inSourceView.getColor imageX imageY with
          | none => st2
          | some currentColor =>
            (st2.1 + currentColor.r * ((inMask.getD filterX []).getD filterY 0),
             st2.2.1 + currentColor.g * ((inMask.getD filterX []).getD filterY 0),
             st2.2.2.1 + currentColor.b * ((inMask.getD filterX []).getD filterY 0),
             currentColor.a))
        st)
    ((0 : ℚ), (0 : ℚ), (0 : ℚ), (0 : ℚ))

/-- `Filters.prototype.maskFilter(inSourceView, inDestinationView, inMask,
inFactor, inBias)` (`Filters.js` 1783-1826): defaults follow JS truthiness
(`0` falls back to the default), then for every destination pixel (x outer, y
inner) the convolution sums are transformed by
`Math.round(factor * sum + bias)`, packed into a `new Color` carrying the
last-sampled alpha, clamped, and written to the destination. -/
def Filters.maskFilter (inSourceView inDestinationView : MinimalView)
    (inMask : List (List ℚ)) (inFactor inBias : ℚ) : MinimalView :=
  let factor := if inFactor = 0 then 1 else inFactor
  let bias := if inBias = 0 then 0 else inBias
  (List.range inSourceView.getWidth).foldl
    (fun d (iXLoop : ℕ) =>
      (List.range inSourceView.getHeight).foldl
        (fun d2 (iYLoop : ℕ) =>
          let sums := maskFilterSums inSourceView inMask iXLoop iYLoop
          let newColor := Color.make ((round (factor * sums.1 + bias) : ℤ) : ℚ)
            ((round (factor * sums.2.1 + bias) : ℤ) : ℚ)
            ((round (factor * sums.2.2.1 + bias) : ℤ) : ℚ) sums.2.2.2
          d2.setColor (iXLoop : ℤ) (iYLoop : ℤ) (some newColor.clamp))
        d)
    inDestinationView

/-- The fixed 3×3 mask of `Filters.prototype.detectEdges`. -/
def aQuickMask : List (List ℚ) :=
  [[-1, 0, -1], [0, 4, 0], [-1, 0, -1]]

/-- The mask accumulation of `Filters.prototype.detectEdges` at `(iLoop1,
iLoop2)`: offsets −1..1 (sMaskLoop1 applied to x, outer; sMaskLoop2 applied
to y, inner); null neighbors are skipped (with a diagnostic); otherwise the
normalized neighbor is scaled by the mask entry and accumulated with
`addColor` (which also accumulates alpha), and `fAlphaValue` tracks the last
sampled neighbor's alpha.  Returns (sum color, fAlphaValue). -/
def detectEdgesSum (inSourceView : MinimalView) (iLoop1 iLoop2 : ℕ) : Color × ℚ :=
  ([-1, 0, 1] : List ℤ).foldl
    (fun st sMaskLoop1 =>
      ([-1, 0, 1] : List ℤ).foldl
        (fun st2 sMaskLoop2 =>
          let sMaskValue := (aQuickMask.getD (sMaskLoop1 + 1).toNat []).getD (sMaskLoop2 + 1).toNat 0
          match inSourceView.getColor ((iLoop1 : ℤ) + sMaskLoop1) ((iLoop2 : ℤ) + sMaskLoop2) with
          | none => st2
          | some oColor =>
            let oColorN := oColor.getNormalizedColor
            (st2.1.addColor (oColorN.multiplyNumber sMaskValue), oColorN.a))
        st)
    (((Color.make 0 0 0 1).getNormalizedColor).assignNumber 0, 1)

/-- `Filters.prototype.detectEdges(inSourceView, inDestinationView)`
(`Filters.js` 1548-1598): for x from 1 to sourceWidth−2 (outer) and y from 1
to sourceHeight−2 (inner), grayscale the normalized source pixel, accumulate
the 3×3 `aQuickMask` response, clamp it, grayscale it (the source aliases
`oGraySumColor = oSumColor`, so the grayscaled sum is also the color written),
and only when the grayscaled response exceeds the pixel's grayscale is the
255-mode response (with the last-sampled alpha) written to the destination.
(`new Color().getNormalizedColor()` has NaN channels overwritten by
`assignNumber(0)`; the model starts from channel value 0 directly.  A null
source pixel at the interior coordinates the loop visits cannot occur on a
well-formed view and is modelled as skipping the pixel.) -/
def Filters.detectEdges (inSourceView inDestinationView : MinimalView) : MinimalView :=
  (List.range' 1 (inSourceView.getWidth - 2)).foldl
    (fun d (iLoop1 : ℕ) =>
      (List.range' 1 (inSourceView.getHeight - 2)).foldl
        (fun d2 (iLoop2 : ℕ) =>
          match inSourceView.getColor (iLoop1 : ℤ) (iLoop2 : ℤ) with
          | none => d2
          | some oColor =>
            let oOutColor := (oColor.getNormalizedColor).grayscale
            let sums := detectEdgesSum inSourceView iLoop1 iLoop2
            let oSumColor := sums.1.clamp
            let oGraySumColor := oSumColor.grayscale
            if oGraySumColor.r > oOutColor.r then
              let oNewColor := { oGraySumColor.get255Color with a := sums.2 }
              d2.setColor (iLoop1 : ℤ) (iLoop2 : ℤ) (some oNewColor)
            else d2)
        d)
    inDestinationView

/-- `Filters.prototype.bilinearInterpolatePixel(inView, inX, inY)`
(`Filters.js` 1269-1318): null when the rounded coordinate is negative or
STRICTLY exceeds the view dimension; otherwise sample the four floor/ceiling
neighbors; if any is null, fall back to the direct lookup at the rounded
coordinate; else normalize all four, form the bilinear combination with the
mutating `multiplyNumber`/`addColor` chain, clamp, and return the 255-mode
result. -/
def Filters.bilinearInterpolatePixel (inView : MinimalView) (inX inY : ℚ) : Option Color :=
  let xRounded := round inX
  let yRounded := round inY
  if xRounded < 0 then none
  else if yRounded < 0 then none
  else if (inView.getWidth : ℤ) < xRounded then none
  else if (inView.getHeight : ℤ) < yRounded then none
  else
    let iCeilingX := ⌈inX⌉
    let iCeilingY := ⌈inY⌉
    let iFloorX := ⌊inX⌋
    let iFloorY := ⌊inY⌋
    let fFractionX := inX - (⌊inX⌋ : ℚ)
    let fFractionY := inY - (⌊inY⌋ : ℚ)
    let fOneMinusX := 1 - fFractionX
    let fOneMinusY := 1 - fFractionY
    match inView.getColor iFloorX iFloorY, inView.getColor iFloorX iCeilingY,
        inView.getColor iCeilingX iFloorY, inView.getColor iCeilingX iCeilingY with
    | some oFloorXFloorYColor, some oFloorXCeilingYColor,
      some oCeilingXFloorYColor, some oCeilingXCeilingYColor =>
      let nFF := oFloorXFloorYColor.getNormalizedColor
      let nFC := oFloorXCeilingYColor.getNormalizedColor
      let nCF := oCeilingXFloorYColor.getNormalizedColor
      let nCC := oCeilingXCeilingYColor.getNormalizedColor
      let oColor1 := (nFF.multiplyNumber fOneMinusX).addColor (nCF.multiplyNumber fFractionX)
      let oColor2 := (nFC.multiplyNumber fOneMinusX).addColor (nCC.multiplyNumber fFractionX)
      let oColor3 := (oColor1.multiplyNumber fOneMinusY).addColor (oColor2.multiplyNumber fFractionY)
      some oColor3.clamp.get255Color
    | _, _, _, _ => inView.getColor xRounded yRounded

/-- The decimal digit character for a digit value 0..9 (as JS number-to-string
produces). -/
def digitChar (d : ℕ) : Char :=
  Char.ofNat (48 + d)

/-- The decimal character sequence of a natural number, most significant digit
first, as JS `String(n)` produces for a non-negative integer. -/
def natToChars (n : ℕ) : List Char :=
  if n = 0 then [Char.ofNat 48]
  else ((Nat.digits 10 n).reverse).map digitChar

/-- The decimal character sequence of an integer (leading `-` when negative),
as JS `String(i)` produces for an integer-valued number. -/
def intToChars (i : ℤ) : List Char :=
  if i < 0 then Char.ofNat 45 :: natToChars (-i).toNat else natToChars i.toNat

/-- The number of decimal fraction digits JS uses for a number with a finite
decimal expansion: the least `k` with `q * 10^k` integral (searched up to the
denominator, which always suffices for denominators of the form `2^a * 5^b`;
for a rational with no finite decimal expansion — unrepresentable as a JS
number — the search fails and 0 is returned). -/
def decExp (q : ℚ) : ℕ :=
  match (List.range (q.den + 1)).find? (fun k => (q * 10 ^ k).den = 1) with
  | some k => k
  | none => 0

/-- The `k`-digit zero-padded decimal character sequence of `fp < 10^k` (the
fraction part of a JS decimal literal). -/
def padDigits (k fp : ℕ) : List Char :=
  List.replicate (k - (natToChars fp).length) (Char.ofNat 48) ++ natToChars fp

/-- JS `String(q)` for a non-negative number with a finite decimal expansion:
the integer part, and when the fraction is non-zero a `.` followed by the
minimal fraction digits (no trailing zeros, matching the shortest round-trip
representation JS prints). -/
def nonnegRatToChars (q : ℚ) : List Char :=
  let k := decExp q
  if k = 0 then natToChars q.num.toNat
  else
    let scaled := (q * 10 ^ k).num.toNat
    natToChars (scaled / 10 ^ k) ++ Char.ofNat 46 :: padDigits k (scaled % 10 ^ k)

/-- JS `String(q)` for a number with a finite decimal expansion (leading `-`
when negative). -/
def ratToChars (q : ℚ) : List Char :=
  if q < 0 then Char.ofNat 45 :: nonnegRatToChars (-q) else nonnegRatToChars q

/-- The digit value of a decimal digit character, `none` otherwise. -/
def charDigit (c : Char) : Option ℕ :=
  if 48 ≤ c.toNat ∧ c.toNat ≤ 57 then some (c.toNat - 48) else none

/-- Longest leading run of decimal digits and the rest of the input. -/
def takeDigits : List Char → List ℕ × List Char
  | [] => ([], [])
  | c :: rest =>
    match charDigit c with
    | some d =>
      let p := takeDigits rest
      (d :: p.1, p.2)
    | none => ([], c :: rest)

/-- The natural number denoted by a most-significant-first digit list. -/
def digitsToNat (ds : List ℕ) : ℕ :=
  ds.foldl (fun acc d => acc * 10 + d) 0

/-- JS `parseInt(s)` on the inputs the engine produces: an optional leading
`-`, then the longest leading digit run (ignoring anything after it);
`none` models NaN (no digits). -/
def parseIntJS (cs : List Char) : Option ℤ :=
  match cs with
  | c :: rest =>
    if c = Char.ofNat 45 then
      match takeDigits rest with
      | ([], _) => none
      | (ds, _) => some (-(digitsToNat ds : ℤ))
    else
      match takeDigits cs with
      | ([], _) => none
      | (ds, _) => some ((digitsToNat ds : ℤ))
  | [] => none

/-- JS `parseFloat(s)` on the decimal literals the engine produces: an
optional leading `-`, integer digits, an optional `.` and fraction digits
(anything after the recognized prefix is ignored); `none` models NaN (no
digits at all). -/
def parseFloatJS (cs : List Char) : Option ℚ :=
  let core : List Char → Option ℚ := fun body =>
    let ip := takeDigits body
    let rest := ip.2
    match rest with
    | c :: rest2 =>
      if c = Char.ofNat 46 then
        let fp := takeDigits rest2
        if ip.1 = [] ∧ fp.1 = [] then none
        else some ((digitsToNat ip.1 : ℚ) + (digitsToNat fp.1 : ℚ) / 10 ^ fp.1.length)
      else if ip.1 = [] then none
      else some ((digitsToNat ip.1 : ℚ))
    | [] => if ip.1 = [] then none else some ((digitsToNat ip.1 : ℚ))
  match cs with
  | c :: rest =>
    if c = Char.ofNat 45 then (core rest).map (fun q => -q)
    else core cs
  | [] => none

/-- JS `String.prototype.split(sep)` on a character list: always returns at
least one (possibly empty) token; a trailing separator yields a trailing
empty token. -/
def jsSplit (sep : Char) : List Char → List (List Char)
  | [] => [[]]
  | c :: rest =>
    let r := jsSplit sep rest
    if c = sep then [] :: r
    else
      match r with
      | t :: ts => (c :: t) :: ts
      | [] => [[c]]

/-- The `"r,g,b,a"` text of one pixel as `imageToString` emits it (each JS
number printed by its decimal representation), without the trailing `;`. -/
def pixelChars (oColor : Color) : List Char :=
  ratToChars oColor.r ++ Char.ofNat 44 :: ratToChars oColor.g ++
  Char.ofNat 44 :: ratToChars oColor.b ++ Char.ofNat 44 :: ratToChars oColor.a

/-- `MinimalView.prototype.imageToString()` (`Filters.js` 699-714):
`"<width>;<height>;"` followed by one `"r,g,b,a;"` group per pixel in
row-major order (y outer, x inner).  (A null pixel would crash the JS method
with a TypeError; on a well-formed view every in-range read is present, and
the model lets an absent pixel contribute nothing.) -/
def MinimalView.imageToString (v : MinimalView) : List Char :=
  natToChars v.getWidth ++ Char.ofNat 59 ::
  natToChars v.getHeight ++ Char.ofNat 59 ::
  ((List.range v.getHeight).foldl
    (fun acc (yLoop : ℕ) =>
      (List.range v.getWidth).foldl
        (fun acc2 (xLoop : ℕ) =>
          match v.getColor (xLoop : ℤ) (yLoop : ℤ) with
          | none => acc2
          | some oColor => acc2 ++ pixelChars oColor ++ [Char.ofNat 59])
        acc)
    [])

/-- The characters of the literal `"null"`. -/
def nullChars : List Char :=
  [Char.ofNat 110, Char.ofNat 117, Char.ofNat 108, Char.ofNat 108]

/-- One step of the pixel loop of `imageFromString`: split the group on `,`;
when it has exactly 4 fields and the first is not literally `"null"`, build a
`new Color` from `parseInt`-ed r, g, b and `parseFloat`-ed a (a NaN field,
which never arises from numeric payloads, is modelled as 0), write it at
`(xPos, yPos)`, and advance the cursor (wrapping x at the declared width);
otherwise leave cursor and surface untouched. -/
def imageFromStringStep (imageWidth : ℕ) (st : ℕ × ℕ × MinimalView)
    (group : List Char) : ℕ × ℕ × MinimalView :=
  let oColorArray := jsSplit (Char.ofNat 44) group
  if oColorArray.length = 4 ∧ oColorArray.getD 0 [] ≠ nullChars then
    let oColor : Color :=
      { r := (((parseIntJS (oColorArray.getD 0 [])).getD 0 : ℤ) : ℚ)
        g := (((parseIntJS (oColorArray.getD 1 [])).getD 0 : ℤ) : ℚ)
        b := (((parseIntJS (oColorArray.getD 2 [])).getD 0 : ℤ) : ℚ)
        a := (parseFloatJS (oColorArray.getD 3 [])).getD 0
        transparent := false
        normalized := false }
    let acc := st.2.2.setColor (st.1 : ℤ) (st.2.1 : ℤ) (some oColor)
    let xPos := st.1 + 1
    if xPos % imageWidth = 0 then (0, st.2.1 + 1, acc) else (xPos, st.2.1, acc)
  else st

/-- `MinimalView.prototype.imageFromString(inString)` (`Filters.js` 726-775):
reject empty input; split on `;`; reject fewer than 3 tokens; `parseInt` the
declared width and height and reject when either is NaN or 0 (JS falsiness)
or differs from the view's dimensions; reject when the token count is not
`width*height + 3` (the two dimension tokens plus the empty token after the
trailing `;`); then run the pixel loop over the `width*height` group tokens,
starting from cursor (0,0). -/
def MinimalView.imageFromString (v : MinimalView) (inString : List Char) : MinimalView :=
  if inString = [] then v
  else
    let imageData := jsSplit (Char.ofNat 59) inString
    if imageData.length < 3 then v
    else
      match parseIntJS (imageData.getD 0 []), parseIntJS (imageData.getD 1 []) with
      | some imageWidth, some imageHeight =>
        if imageWidth = 0 ∨ imageHeight = 0 then v
        else if imageWidth ≠ (v.getWidth : ℤ) ∨ imageHeight ≠ (v.getHeight : ℤ) then v
        else if (imageData.length : ℤ) ≠ imageWidth * imageHeight + 3 then v
        else
          ((List.range (imageWidth * imageHeight).toNat).foldl
            (fun st loop => imageFromStringStep imageWidth.toNat st (imageData.getD (loop + 2) []))
            (0, 0, v)).2.2
      | _, _ => v

/-- The list of present (non-null) pixel colors of a view, in the x-outer
scan order of the filter loops: the specification-side notion used to state
what `histogram` counts. -/
def viewPixels (v : MinimalView) : List Color :=
  (coordList v.getWidth v.getHeight).filterMap
    (fun p => v.getColor (p.1 : ℤ) (p.2 : ℤ))

/-- The row-major coordinate enumeration (y outer, x inner) that
`imageToString` serializes and `imageFromString` reconstructs. -/
def coordListYX (w h : ℕ) : List (ℕ × ℕ) :=
  (List.range h).flatMap (fun y => (List.range w).map (fun x => (x, y)))

/-- The present pixels of a view in the row-major (y outer, x inner) order of
`imageToString`. -/
def viewPixelsRowMajor (v : MinimalView) : List Color :=
  (coordListYX v.getWidth v.getHeight).filterMap
    (fun p => v.getColor (p.1 : ℤ) (p.2 : ℤ))

/-- The condition under which one pixel group of `imageFromString` is applied
(rather than skipped): the comma-split has exactly 4 fields and the first is
not literally `"null"`. -/
def groupApplies (group : List Char) : Prop :=
  (jsSplit (Char.ofNat 44) group).length = 4 ∧
  (jsSplit (Char.ofNat 44) group).getD 0 [] ≠ nullChars

instance (group : List Char) : Decidable (groupApplies group) := by
  unfold groupApplies; infer_instance

/-- The color an applied group of `imageFromString` constructs: `parseInt`-ed
r, g, b and `parseFloat`-ed a, on a fresh non-transparent 255-mode `Color`. -/
def groupColor (group : List Char) : Color :=
  { r := (((parseIntJS ((jsSplit (Char.ofNat 44) group).getD 0 [])).getD 0 : ℤ) : ℚ)
    g := (((parseIntJS ((jsSplit (Char.ofNat 44) group).getD 1 [])).getD 0 : ℤ) : ℚ)
    b := (((parseIntJS ((jsSplit (Char.ofNat 44) group).getD 2 [])).getD 0 : ℤ) : ℚ)
    a := (parseFloatJS ((jsSplit (Char.ofNat 44) group).getD 3 [])).getD 0
    transparent := false
    normalized := false }

/-! ### Helper lemmas: the pixel store -/

theorem setColor_width (v : MinimalView) (x y : ℤ) (c : Option Color) :
    (v.setColor x y c).width = v.width := by
  unfold MinimalView.setColor
  cases c with
  | none => rfl
  | some col =>
    dsimp only
    split
    · rfl
    · split
      · rfl
      · split
        · rfl
        · rfl

theorem setColor_height (v : MinimalView) (x y : ℤ) (c : Option Color) :
    (v.setColor x y c).height = v.height := by
  unfold MinimalView.setColor
  cases c with
  | none => rfl
  | some col =>
    dsimp only
    split
    · rfl
    · split
      · rfl
      · split
        · rfl
        · rfl

theorem setColor_wf (v : MinimalView) (x y : ℤ) (c : Option Color) (h : v.wf) :
    (v.setColor x y c).wf := by
  unfold MinimalView.setColor
  cases c with
  | none => exact h
  | some col =>
    dsimp only
    split
    · exact h
    · split
      · exact h
      · rename_i row hrow
        split
        · refine ⟨?_, ?_⟩
          · simpa using h.1
          · intro r hr
            rcases List.mem_or_eq_of_mem_set hr with hmem | heq
            · exact h.2 r hmem
            · subst heq
              rw [List.length_set]
              obtain ⟨hlt, heq⟩ := List.getElem?_eq_some_iff.mp hrow
              rw [← heq]
              exact h.2 _ (List.getElem_mem hlt)
        · exact h

theorem getColor_eq_some (v : MinimalView) (x y : ℕ) (h : v.wf)
    (hx : x < v.width) (hy : y < v.height) :
    ∃ c, v.getColor (x : ℤ) (y : ℤ) = some c := by
  unfold MinimalView.getColor
  have h0 : ¬((x : ℤ) < 0 ∨ (y : ℤ) < 0) := by push_neg; constructor <;> positivity
  rw [if_neg h0]
  simp only [Int.toNat_natCast]
  have hyl : y < v.colors.length := by rw [h.1]; exact hy
  rw [List.getElem?_eq_getElem hyl]
  have hxl : x < v.colors[y].length := by
    rw [h.2 _ (List.getElem_mem hyl)]; exact hx
  exact ⟨_, List.getElem?_eq_getElem hxl⟩

theorem getColor_setColor_self (v : MinimalView) (x y : ℕ) (c : Color) (h : v.wf)
    (hx : x < v.width) (hy : y < v.height) :
    (v.setColor (x : ℤ) (y : ℤ) (some c)).getColor (x : ℤ) (y : ℤ) = some c := by
  have h0 : ¬((x : ℤ) < 0 ∨ (y : ℤ) < 0) := by push_neg; constructor <;> positivity
  have hyl : y < v.colors.length := by rw [h.1]; exact hy
  unfold MinimalView.setColor
  dsimp only
  rw [if_neg h0]
  simp only [Int.toNat_natCast]
  rw [List.getElem?_eq_getElem hyl]
  dsimp only
  have hxl : x < v.colors[y].length := by
    rw [h.2 _ (List.getElem_mem hyl)]; exact hx
  rw [if_pos hxl]
  unfold MinimalView.getColor
  rw [if_neg h0]
  simp only [Int.toNat_natCast]
  rw [List.getElem?_set_self (by simpa using hyl)]
  dsimp only
  rw [List.getElem?_set_self (by simpa using hxl)]

theorem getColor_setColor_ne (v : MinimalView) (x y x9 y9 : ℤ) (oc : Option Color)
    (hne : x9 ≠ x ∨ y9 ≠ y) :
    (v.setColor x y oc).getColor x9 y9 = v.getColor x9 y9 := by
  cases oc with
  | none => rfl
  | some c =>
    unfold MinimalView.setColor
    dsimp only
    split
    · rfl
    · rename_i hnn
      cases hrow : v.colors[y.toNat]? with
      | none => rfl
      | some row =>
        dsimp only
        split
        · rename_i hxlt
          unfold MinimalView.getColor
          dsimp only
          split
          · rfl
          · rename_i hnn9
            push_neg at hnn hnn9
            by_cases hyy : y9.toNat = y.toNat
            · have hy9 : y9 = y := by omega
              have hx9 : x9 ≠ x := by
                rcases hne with hne | hne
                · exact hne
                · exact absurd hy9 hne
              rw [hyy, List.getElem?_set_self (by exact (List.getElem?_eq_some_iff.mp hrow).choose),
                hrow]
              dsimp only
              rw [List.getElem?_set_ne (by omega)]
            · rw [List.getElem?_set_ne (by omega)]
        · rfl

/-! ### Helper lemmas: folds and the coordinate enumeration -/

theorem foldl_getColor_congr {σ α : Type} (view : σ → MinimalView) (L : List α)
    (step : σ → α → σ) (x y : ℤ)
    (h : ∀ s a, a ∈ L → (view (step s a)).getColor x y = (view s).getColor x y) :
    ∀ s0, (view (L.foldl step s0)).getColor x y = (view s0).getColor x y := by
  induction L with
  | nil => intro s0; rfl
  | cons hd tl ih =>
    intro s0
    rw [List.foldl_cons]
    rw [ih (fun s a ha => h s a (List.mem_cons_of_mem _ ha))]
    exact h s0 hd (List.mem_cons_self _ _)

theorem foldl_invariant {σ α : Type} (p : σ → Prop) (L : List α) (step : σ → α → σ)
    (h : ∀ s a, a ∈ L → p s → p (step s a)) :
    ∀ s0, p s0 → p (L.foldl step s0) := by
  induction L with
  | nil => intro s0 h0; exact h0
  | cons hd tl ih =>
    intro s0 h0
    rw [List.foldl_cons]
    exact ih (fun s a ha => h s a (List.mem_cons_of_mem _ ha)) _
      (h s0 hd (List.mem_cons_self _ _) h0)

theorem mem_coordList {w h : ℕ} {p : ℕ × ℕ} :
    p ∈ coordList w h ↔ p.1 < w ∧ p.2 < h := by
  cases p with
  | mk x y =>
    simp only [coordList, List.mem_flatMap, List.mem_map, List.mem_range]
    constructor
    · rintro ⟨a, ha, b, hb, heq⟩
      cases heq
      exact ⟨ha, hb⟩
    · rintro ⟨hx, hy⟩
      exact ⟨x, hx, y, hy, rfl⟩

theorem nodup_coordList (w h : ℕ) : (coordList w h).Nodup := by
  rw [coordList, List.nodup_flatMap]
  constructor
  · intro x _
    exact (List.nodup_range h).map (fun a b hab => by simpa using hab)
  · refine List.Pairwise.imp ?_ (List.pairwise_lt_range w)
    intro a b hab
    intro q hqa hqb
    simp only [List.mem_map, List.mem_range] at hqa hqb
    obtain ⟨ya, _, rfl⟩ := hqa
    obtain ⟨yb, _, heq⟩ := hqb
    exact absurd (congrArg Prod.fst heq).symm hab.ne

theorem exists_split_of_nodup_mem {α : Type} {l : List α} {a : α}
    (h1 : l.Nodup) (h2 : a ∈ l) :
    ∃ l1 l2, l = l1 ++ a :: l2 ∧ a ∉ l1 ∧ a ∉ l2 := by
  induction l with
  | nil => cases h2
  | cons hd tl ih =>
    rcases List.mem_cons.mp h2 with heq | hmem
    · subst heq
      exact ⟨[], tl, rfl, by simp, (List.nodup_cons.mp h1).1⟩
    · obtain ⟨l1, l2, heq, hn1, hn2⟩ := ih (List.nodup_cons.mp h1).2 hmem
      refine ⟨hd :: l1, l2, by rw [heq]; rfl, ?_, hn2⟩
      intro hmem2
      rcases List.mem_cons.mp hmem2 with heq2 | hmem2
      · exact (List.nodup_cons.mp h1).1 (heq2 ▸ hmem)
      · exact hn1 hmem2

/-! ### Helper lemmas: literal evaluations used by concrete computations -/

theorem intToNat0 : ((0 : ℤ)).toNat = 0 := rfl

theorem intToNat1 : ((1 : ℤ)).toNat = 1 := rfl

theorem intToNat2 : ((2 : ℤ)).toNat = 2 := rfl

theorem charOfNat44 : Char.ofNat 44 = ',' := rfl

theorem charOfNat45 : Char.ofNat 45 = '-' := rfl

theorem charOfNat46 : Char.ofNat 46 = '.' := rfl

theorem charOfNat59 : Char.ofNat 59 = ';' := rfl

theorem charOfNat48 : Char.ofNat 48 = '0' := rfl

theorem charOfNat49 : Char.ofNat 49 = '1' := rfl

theorem charOfNat50 : Char.ofNat 50 = '2' := rfl

theorem charOfNat51 : Char.ofNat 51 = '3' := rfl

theorem charOfNat52 : Char.ofNat 52 = '4' := rfl

theorem charOfNat53 : Char.ofNat 53 = '5' := rfl

theorem charOfNat54 : Char.ofNat 54 = '6' := rfl

theorem charOfNat55 : Char.ofNat 55 = '7' := rfl

theorem charOfNat56 : Char.ofNat 56 = '8' := rfl

theorem charOfNat57 : Char.ofNat 57 = '9' := rfl

theorem charOfNat110 : Char.ofNat 110 = 'n' := rfl

theorem charOfNat117 : Char.ofNat 117 = 'u' := rfl

theorem charOfNat108 : Char.ofNat 108 = 'l' := rfl

/-! ### Claim C2 -/

/-- Claim C2 (code bug): `translate` is supposed to fill the destination with
the fill color first, but it calls `fill()` without an argument (only
assigning `backgroundColor`, which `MinimalView.fill` never reads), so every
destination pixel not covered by a shifted source pixel keeps its PRIOR value
instead of the fill color.  Concretely: translating a 1×1 source into a 2×2
destination whose pixels previously held (7,7,7,1), with offsets (0,0) and
fill color white, leaves the uncovered destination pixel (1,1) at (7,7,7,1)
rather than white. -/
theorem translate_fill_noop_bug :
    (Filters.translate ⟨1, 1, [[Color.make 10 20 30 1]], none⟩
        ⟨2, 2, [[Color.make 7 7 7 1, Color.make 7 7 7 1],
                [Color.make 7 7 7 1, Color.make 7 7 7 1]], none⟩
        0 0 (Color.make 255 255 255 1)).getColor 1 1 = some (Color.make 7 7 7 1) ∧
    Color.make 7 7 7 1 ≠ Color.make 255 255 255 1 := by
  constructor
  · norm_num +decide [Filters.translate, MinimalView.fill, MinimalView.getColor,
      MinimalView.setColor, MinimalView.getWidth, MinimalView.getHeight, Color.make,
      List.range_succ]
  · simp [Color.make]

/-! ### Claim C5 -/

/-- Claim C5 (code bug): `maskFilter` with the 1×1 identity kernel `[[1]]`,
factor 1, bias 0 does NOT reproduce the source.  The sample coordinate is
`Math.round((x - 1/2 + width) % width)`; JS computes `filterWidth / 2` in
floating point (0.5) and `Math.round` rounds halves UP, so at `x = 0` the
wrapped coordinate `width - 0.5` rounds to `width` — out of bounds — and the
sample is skipped.  On a 1×1 source holding (10,20,30,1) the single
destination pixel receives `Color(0,0,0,0)` instead of the source pixel. -/
theorem maskFilter_identity_kernel_bug :
    (Filters.maskFilter ⟨1, 1, [[Color.make 10 20 30 1]], none⟩
        ⟨1, 1, [[Color.make 7 7 7 1]], none⟩ [[1]] 1 0).getColor 0 0 =
      some (Color.make 0 0 0 0) ∧
    (⟨1, 1, [[Color.make 10 20 30 1]], none⟩ : MinimalView).getColor 0 0 =
      some (Color.make 10 20 30 1) := by
  constructor
  · norm_num +decide [Filters.maskFilter, maskFilterSums, jsRem, ratTrunc, Color.make,
      MinimalView.getColor, MinimalView.setColor, MinimalView.getWidth, MinimalView.getHeight,
      Color.clamp, round_eq, List.range_succ]
  · norm_num [MinimalView.getColor, Color.make]

/-! ### Claim C1 -/

theorem pointMutatingPass_fields (f : Color → Color) (src dst : MinimalView) :
    (pointMutatingPass f src dst).1.width = src.width ∧
    (pointMutatingPass f src dst).1.height = src.height ∧
    (src.wf → (pointMutatingPass f src dst).1.wf) := by
  have h := foldl_invariant
    (fun st : MinimalView × MinimalView =>
      st.1.width = src.width ∧ st.1.height = src.height ∧ (src.wf → st.1.wf))
    (coordList src.getWidth src.getHeight)
    (fun st xy =>
      match st.1.getColor (xy.1 : ℤ) (xy.2 : ℤ) with
      | none => st
      | some oColor =>
        let oColor2 := f oColor
        (st.1.setColor (xy.1 : ℤ) (xy.2 : ℤ) (some oColor2),
         st.2.setColor (xy.1 : ℤ) (xy.2 : ℤ) (some oColor2)))
    ?_ (src, dst) ⟨rfl, rfl, fun hw => hw⟩
  · exact h
  · intro s a _ hp
    cases hget : s.1.getColor (a.1 : ℤ) (a.2 : ℤ) with
    | none => simpa [hget] using hp
    | some c =>
      refine ⟨?_, ?_, fun hw => ?_⟩
      · simp only [hget]
        rw [setColor_width]
        exact hp.1
      · simp only [hget]
        rw [setColor_height]
        exact hp.2.1
      · simp only [hget]
        exact setColor_wf _ _ _ _ (hp.2.2 hw)

theorem pointMutatingPass_src_get (f : Color → Color) (src dst : MinimalView)
    (h : src.wf) (x y : ℕ) (hx : x < src.getWidth) (hy : y < src.getHeight) :
    (pointMutatingPass f src dst).1.getColor (x : ℤ) (y : ℤ) =
      (src.getColor (x : ℤ) (y : ℤ)).map f := by
  have hmem : ((x, y) : ℕ × ℕ) ∈ coordList src.getWidth src.getHeight :=
    mem_coordList.mpr ⟨hx, hy⟩
  obtain ⟨L1, L2, hsplit, hn1, hn2⟩ :=
    exists_split_of_nodup_mem (nodup_coordList src.getWidth src.getHeight) hmem
  set step : MinimalView × MinimalView → ℕ × ℕ → MinimalView × MinimalView :=
    fun st xy =>
      match st.1.getColor (xy.1 : ℤ) (xy.2 : ℤ) with
      | none => st
      | some oColor =>
        let oColor2 := f oColor
        (st.1.setColor (xy.1 : ℤ) (xy.2 : ℤ) (some oColor2),
         st.2.setColor (xy.1 : ℤ) (xy.2 : ℤ) (some oColor2)) with hstep
  have huntouched : ∀ (L : List (ℕ × ℕ)), ((x, y) ∉ L) → ∀ s0 : MinimalView × MinimalView,
      ((L.foldl step s0).1.getColor (x : ℤ) (y : ℤ) = (s0.1.getColor (x : ℤ) (y : ℤ))) := by
    intro L hL s0
    refine foldl_getColor_congr Prod.fst L step (x : ℤ) (y : ℤ) ?_ s0
    intro s a ha
    have hne : a ≠ (x, y) := fun hcontra => hL (hcontra ▸ ha)
    have hne2 : (x : ℤ) ≠ (a.1 : ℤ) ∨ (y : ℤ) ≠ (a.2 : ℤ) := by
      by_cases h1 : a.1 = x
      · right
        intro hcontra
        refine hne ?_
        have h2 : a.2 = y := by exact_mod_cast hcontra.symm
        calc a = (a.1, a.2) := rfl
          _ = (x, y) := by rw [h1, h2]
      · left
        intro hcontra
        exact h1 (by exact_mod_cast hcontra.symm)
    rw [hstep]
    cases hget : s.1.getColor (a.1 : ℤ) (a.2 : ℤ) with
    | none => simp [hget]
    | some c =>
      simp only [hget]
      exact getColor_setColor_ne _ _ _ _ _ _ hne2
  have hinv := pointMutatingPass_fields f src dst
  unfold pointMutatingPass
  rw [hsplit, List.foldl_append, List.foldl_cons]
  set st1 := L1.foldl step (src, dst) with hst1
  have hfields : st1.1.width = src.width ∧ st1.1.height = src.height ∧ st1.1.wf := by
    have h' := foldl_invariant
      (fun st : MinimalView × MinimalView =>
        st.1.width = src.width ∧ st.1.height = src.height ∧ st.1.wf)
      L1 step ?_ (src, dst) ⟨rfl, rfl, h⟩
    · exact h'
    · intro s a _ hp
      rw [hstep]
      cases hget : s.1.getColor (a.1 : ℤ) (a.2 : ℤ) with
      | none => simpa [hget] using hp
      | some c =>
        simp only [hget]
        exact ⟨by rw [setColor_width]; exact hp.1, by rw [setColor_height]; exact hp.2.1,
          setColor_wf _ _ _ _ hp.2.2⟩
  have hbefore : st1.1.getColor (x : ℤ) (y : ℤ) = src.getColor (x : ℤ) (y : ℤ) :=
    huntouched L1 hn1 (src, dst)
  obtain ⟨c, hc⟩ := getColor_eq_some src x y h hx hy
  have hstepxy : (step st1 (x, y)).1.getColor (x : ℤ) (y : ℤ) = some (f c) := by
    rw [hstep]
    simp only [hbefore, hc]
    exact getColor_setColor_self st1.1 x y (f c) hfields.2.2
      (by rw [hfields.1]; exact hx) (by rw [hfields.2.1]; exact hy)
  rw [huntouched L2 hn2 (step st1 (x, y)), hstepxy, hc]
  rfl

/-- Claim C1 (counterexample): with a distinct 1×1 destination, `grayscale`
mutates its SOURCE — `MinimalView.getColor` hands out a live reference and
`Color.prototype.grayscale` mutates it in place — so the source pixel
(100,200,50) becomes (153,153,153) after the call, contradicting the claim
that the source is unchanged. -/
theorem grayscale_mutates_source_counterexample :
    (Filters.grayscale ⟨1, 1, [[Color.make 100 200 50 1]], none⟩
        (MinimalView.make 1 1)).1.getColor 0 0 ≠
      (⟨1, 1, [[Color.make 100 200 50 1]], none⟩ : MinimalView).getColor 0 0 ∧
    (Filters.grayscale ⟨1, 1, [[Color.make 100 200 50 1]], none⟩
        (MinimalView.make 1 1)).1.getColor 0 0 = some (Color.make 153 153 153 1) := by
  have heval : (Filters.grayscale ⟨1, 1, [[Color.make 100 200 50 1]], none⟩
      (MinimalView.make 1 1)).1.getColor 0 0 = some (Color.make 153 153 153 1) := by
    norm_num +decide [Filters.grayscale, pointMutatingPass, coordList, Color.grayscale,
      Color.make, MinimalView.make, MinimalView.getColor, MinimalView.setColor,
      MinimalView.getWidth, MinimalView.getHeight, round_eq, List.range_succ]
  refine ⟨?_, heval⟩
  rw [heval]
  norm_num [MinimalView.getColor, Color.make]

/-- Claim C1 (amended): the per-pixel filters that mutate the color object
returned by `getColor` (`grayscale` and `invert` among the cited operations)
DO mutate their source surface in place even when the destination is a
distinct surface: after the call, every in-range source pixel holds the
filtered value of its previous color. -/
theorem grayscale_invert_mutate_source (src dst : MinimalView) (h : src.wf)
    (x y : ℕ) (hx : x < src.getWidth) (hy : y < src.getHeight) :
    (Filters.grayscale src dst).1.getColor (x : ℤ) (y : ℤ) =
      (src.getColor (x : ℤ) (y : ℤ)).map Color.grayscale ∧
    (Filters.invert src dst).1.getColor (x : ℤ) (y : ℤ) =
      (src.getColor (x : ℤ) (y : ℤ)).map Color.invert :=
  ⟨pointMutatingPass_src_get Color.grayscale src dst h x y hx hy,
   pointMutatingPass_src_get Color.invert src dst h x y hx hy⟩

/-- Witness for the amended C1 theorem at a concrete 1×1 source. -/
theorem grayscale_invert_mutate_source_witness :
    (Filters.grayscale ⟨1, 1, [[Color.make 100 200 50 1]], none⟩
        (MinimalView.make 1 1)).1.getColor 0 0 =
      ((⟨1, 1, [[Color.make 100 200 50 1]], none⟩ : MinimalView).getColor 0 0).map
        Color.grayscale ∧
    (Filters.invert ⟨1, 1, [[Color.make 100 200 50 1]], none⟩
        (MinimalView.make 1 1)).1.getColor 0 0 =
      ((⟨1, 1, [[Color.make 100 200 50 1]], none⟩ : MinimalView).getColor 0 0).map
        Color.invert :=
  grayscale_invert_mutate_source ⟨1, 1, [[Color.make 100 200 50 1]], none⟩
    (MinimalView.make 1 1) (by decide) 0 0 (by decide) (by decide)

/-! ### Claim C10 -/

/-- Claim C10 (counterexample): `detectEdges` takes its loop bounds from the
SOURCE dimensions, so when the destination is smaller than the source the
method can write onto the destination's outermost border.  With a 4×3 source
(black, except a mid-gray pixel at (2,1)) and a 3×3 destination, the
destination pixel (2,1) — on the destination's right border, x = width−1 —
is overwritten with the edge response (255,255,255,1) instead of keeping its
prior value (0,0,0,0). -/
theorem detectEdges_border_write_counterexample :
    (Filters.detectEdges
        ⟨4, 3, [List.replicate 4 (Color.make 0 0 0 1),
                (List.replicate 4 (Color.make 0 0 0 1)).set 2 (Color.make 128 128 128 1),
                List.replicate 4 (Color.make 0 0 0 1)], none⟩
        (MinimalView.make 3 3)).getColor 2 1 ≠ (MinimalView.make 3 3).getColor 2 1 ∧
    (Filters.detectEdges
        ⟨4, 3, [List.replicate 4 (Color.make 0 0 0 1),
                (List.replicate 4 (Color.make 0 0 0 1)).set 2 (Color.make 128 128 128 1),
                List.replicate 4 (Color.make 0 0 0 1)], none⟩
        (MinimalView.make 3 3)).getColor 2 1 = some (Color.make 255 255 255 1) := by
  have heval : (Filters.detectEdges
      ⟨4, 3, [List.replicate 4 (Color.make 0 0 0 1),
              (List.replicate 4 (Color.make 0 0 0 1)).set 2 (Color.make 128 128 128 1),
              List.replicate 4 (Color.make 0 0 0 1)], none⟩
      (MinimalView.make 3 3)).getColor 2 1 = some (Color.make 255 255 255 1) := by
    norm_num +decide [Filters.detectEdges, detectEdgesSum, Color.make,
      MinimalView.getColor, MinimalView.setColor, MinimalView.getWidth, MinimalView.getHeight,
      MinimalView.make, Color.clamp, Color.grayscale, Color.getNormalizedColor, Color.get255Color,
      Color.addColor, Color.multiplyNumber, Color.assignNumber, aQuickMask,
      xlate255ColorToNormalizedColor, xlateNormalizedColorTo255Color, round_eq, List.range_succ,
      List.range'_succ, intToNat0, intToNat1, intToNat2, List.getD_cons_zero, List.getD_cons_succ,
      List.getD, List.set_cons_zero, List.set_cons_succ, List.getElem?_cons_zero,
      List.getElem?_cons_succ, Option.getD_some]
  refine ⟨?_, heval⟩
  rw [heval]
  norm_num [MinimalView.make, MinimalView.getColor, Color.make, List.getElem?_replicate]

/-- Claim C10 (amended): `detectEdges` never writes any destination pixel
outside the source-interior region: every destination pixel with `x ≤ 0`,
`y ≤ 0`, `x ≥ sourceWidth − 1` or `y ≥ sourceHeight − 1` keeps exactly its
prior value.  (When source and destination have the same dimensions this is
the destination's outermost one-pixel border, as the claim intends; for a
destination smaller than the source the guarantee is only relative to the
source dimensions, see the counterexample.) -/
theorem detectEdges_preserves_outside_source_interior (src dst : MinimalView) (x y : ℤ)
    (hxy : x ≤ 0 ∨ y ≤ 0 ∨ (src.getWidth : ℤ) - 1 ≤ x ∨ (src.getHeight : ℤ) - 1 ≤ y) :
    (Filters.detectEdges src dst).getColor x y = dst.getColor x y := by
  unfold Filters.detectEdges
  refine foldl_getColor_congr id _ _ x y ?_ dst
  intro d i1 hi1
  have hm1 := List.mem_range'_1.mp hi1
  refine foldl_getColor_congr id _ _ x y ?_ d
  intro d2 i2 hi2
  have hm2 := List.mem_range'_1.mp hi2
  have hne : x ≠ (i1 : ℤ) ∨ y ≠ (i2 : ℤ) := by
    rcases hxy with hh | hh | hh | hh
    · left; omega
    · right; omega
    · left
      have := hm1.2
      unfold MinimalView.getWidth at *
      omega
    · right
      have := hm2.2
      unfold MinimalView.getHeight at *
      omega
  dsimp only [id]
  cases hget : src.getColor (i1 : ℤ) (i2 : ℤ) with
  | none => simp [hget]
  | some c =>
    simp only [hget]
    split
    · exact getColor_setColor_ne _ _ _ _ _ _ hne
    · rfl

/-- Witness for the amended C10 theorem at a concrete input (the border pixel
(0,1) of a 3×3 source/destination pair keeps its prior value). -/
theorem detectEdges_preserves_outside_source_interior_witness :
    (Filters.detectEdges (MinimalView.make 3 3)
        ⟨3, 3, [[Color.make 1 1 1 1, Color.make 2 2 2 1, Color.make 3 3 3 1],
                [Color.make 4 4 4 1, Color.make 5 5 5 1, Color.make 6 6 6 1],
                [Color.make 7 7 7 1, Color.make 8 8 8 1, Color.make 9 9 9 1]], none⟩).getColor 0 1 =
      (⟨3, 3, [[Color.make 1 1 1 1, Color.make 2 2 2 1, Color.make 3 3 3 1],
               [Color.make 4 4 4 1, Color.make 5 5 5 1, Color.make 6 6 6 1],
               [Color.make 7 7 7 1, Color.make 8 8 8 1, Color.make 9 9 9 1]], none⟩ :
        MinimalView).getColor 0 1 :=
  detectEdges_preserves_outside_source_interior (MinimalView.make 3 3) _ 0 1
    (Or.inl (by norm_num))

/-! ### Claim C4 -/

set_option maxHeartbeats 2000000 in
/-- Claim C4 (counterexample): on a 3×3 block whose nine pixels all equal the
erosion color (here (10,10,10,1), matching the neighbor color exactly),
erosion with threshold 7 does NOT replace the interior pixel (1,1): the guard
`0 < iYLoop + sYNeighbor` excludes the whole neighbor row at y = 0, so only 6
positions (the rows y = 1 and y = 2, the pixel itself included) are counted,
and 6 does not exceed 7; the destination keeps the copied source pixel. -/
theorem erosion_threshold7_counterexample :
    (Filters.erosion ⟨3, 3, List.replicate 3 (List.replicate 3 (Color.make 10 10 10 1)), none⟩
        (MinimalView.make 3 3) (Color.make 10 10 10 1) 7 0 (Color.make 10 10 10 1)
        (Color.make 99 0 0 1)).getColor 1 1 ≠ some (Color.make 99 0 0 1) ∧
    (Filters.erosion ⟨3, 3, List.replicate 3 (List.replicate 3 (Color.make 10 10 10 1)), none⟩
        (MinimalView.make 3 3) (Color.make 10 10 10 1) 7 0 (Color.make 10 10 10 1)
        (Color.make 99 0 0 1)).getColor 1 1 = some (Color.make 10 10 10 1) := by
  have heval : (Filters.erosion
      ⟨3, 3, List.replicate 3 (List.replicate 3 (Color.make 10 10 10 1)), none⟩
      (MinimalView.make 3 3) (Color.make 10 10 10 1) 7 0 (Color.make 10 10 10 1)
      (Color.make 99 0 0 1)).getColor 1 1 = some (Color.make 10 10 10 1) := by
    norm_num +decide [Filters.erosion, erosionNeighborCount, Color.isEqual, isKindaSortaEqual,
      Color.make, MinimalView.getColor, MinimalView.setColor, MinimalView.getWidth,
      MinimalView.getHeight, MinimalView.make, List.range'_succ, List.getElem?_replicate,
      List.getD, List.getD_cons_zero, List.getD_cons_succ, List.set_cons_zero,
      List.set_cons_succ, List.getElem?_cons_zero, List.getElem?_cons_succ, Option.getD_some]
  refine ⟨?_, heval⟩
  rw [heval]
  norm_num [Color.make]

/-- Claim C4 (amended): for a 3×3 source whose nine pixels all equal the
erosion color within the tolerance (and match the neighbor color within the
tolerance on r,g,b), erosion counts only the 6 neighbor positions with
y ≥ 1 (the pixel itself included; the guard `0 < y + dy` skips the whole
y = 0 row), so with threshold = 7 the interior pixel (1,1) is NOT replaced —
the destination receives the copied source pixel — while with threshold = 5
(count 6 > 5) it IS overwritten with the replacement color. -/
theorem erosion_3x3_interior (src dst : MinimalView) (hsrc : src.wf) (hdst : dst.wf)
    (hw : src.width = 3) (hh : src.height = 3) (hdw : 1 < dst.width) (hdh : 1 < dst.height)
    (ec nc rc : Color) (tol : ℚ)
    (hpix : ∀ x y : ℕ, x < 3 → y < 3 → ∀ c, src.getColor (x : ℤ) (y : ℤ) = some c →
      c.isEqual ec tol = true ∧
      (isKindaSortaEqual nc.r c.r tol && isKindaSortaEqual nc.g c.g tol &&
        isKindaSortaEqual nc.b c.b tol) = true) :
    (∀ c, src.getColor 1 1 = some c →
      (Filters.erosion src dst ec 7 tol nc rc).getColor 1 1 = some c) ∧
    (Filters.erosion src dst ec 5 tol nc rc).getColor 1 1 = some rc := by
  obtain ⟨c01, hc01⟩ := getColor_eq_some src 0 1 hsrc (by omega) (by omega)
  obtain ⟨c11, hc11⟩ := getColor_eq_some src 1 1 hsrc (by omega) (by omega)
  obtain ⟨c21, hc21⟩ := getColor_eq_some src 2 1 hsrc (by omega) (by omega)
  obtain ⟨c02, hc02⟩ := getColor_eq_some src 0 2 hsrc (by omega) (by omega)
  obtain ⟨c12, hc12⟩ := getColor_eq_some src 1 2 hsrc (by omega) (by omega)
  obtain ⟨c22, hc22⟩ := getColor_eq_some src 2 2 hsrc (by omega) (by omega)
  have hc01n : src.getColor 0 1 = some c01 := by exact_mod_cast hc01
  have hc11n : src.getColor 1 1 = some c11 := by exact_mod_cast hc11
  have hc21n : src.getColor 2 1 = some c21 := by exact_mod_cast hc21
  have hc02n : src.getColor 0 2 = some c02 := by exact_mod_cast hc02
  have hc12n : src.getColor 1 2 = some c12 := by exact_mod_cast hc12
  have hc22n : src.getColor 2 2 = some c22 := by exact_mod_cast hc22
  have hb01 := (hpix 0 1 (by norm_num) (by norm_num) c01 hc01).2
  have hb11 := (hpix 1 1 (by norm_num) (by norm_num) c11 hc11).2
  have hb21 := (hpix 2 1 (by norm_num) (by norm_num) c21 hc21).2
  have hb02 := (hpix 0 2 (by norm_num) (by norm_num) c02 hc02).2
  have hb12 := (hpix 1 2 (by norm_num) (by norm_num) c12 hc12).2
  have hb22 := (hpix 2 2 (by norm_num) (by norm_num) c22 hc22).2
  have heq11 := (hpix 1 1 (by norm_num) (by norm_num) c11 hc11).1
  have hcnt : erosionNeighborCount src 1 1 nc tol = 6 := by
    simp only [erosionNeighborCount, List.foldl_cons, List.foldl_nil]
    norm_num [hc01n, hc11n, hc21n, hc02n, hc12n, hc22n, hb01, hb11, hb21, hb02, hb12, hb22]
  have hmain : ∀ th : ℚ, (Filters.erosion src dst ec th tol nc rc).getColor 1 1 =
      (if ((6 : ℕ) : ℚ) > th then
        ((dst.setColor 1 1 (some c11)).setColor 1 1 (some rc)).getColor 1 1
       else (dst.setColor 1 1 (some c11)).getColor 1 1) := by
    intro th
    unfold Filters.erosion
    simp only [MinimalView.getWidth, MinimalView.getHeight, hw, hh,
      show (3 : ℕ) - 2 = 1 from rfl, show List.range' 1 1 = [1] from rfl,
      List.foldl_cons, List.foldl_nil, Nat.cast_one]
    rw [hc11n]
    simp only [heq11, if_true, hcnt]
    split
    · rfl
    · rfl
  constructor
  · intro c hc
    have hcc : c = c11 := Option.some_inj.mp (hc.symm.trans hc11n)
    subst hcc
    rw [hmain 7, if_neg (by norm_num)]
    exact_mod_cast getColor_setColor_self dst 1 1 c hdst hdw hdh
  · rw [hmain 5, if_pos (by norm_num)]
    have hwf2 : (dst.setColor 1 1 (some c11)).wf := setColor_wf _ _ _ _ hdst
    have hg := getColor_setColor_self (dst.setColor 1 1 (some c11)) 1 1 rc hwf2
      (by rw [setColor_width]; exact hdw) (by rw [setColor_height]; exact hdh)
    exact_mod_cast hg

/-- Witness for the amended C4 theorem: the concrete all-(10,10,10,1) 3×3
block with tolerance 0 and threshold 7 (pixel kept) and 5 (pixel replaced). -/
theorem erosion_3x3_interior_witness :
    ((∀ c, (⟨3, 3, List.replicate 3 (List.replicate 3 (Color.make 10 10 10 1)), none⟩ :
        MinimalView).getColor 1 1 = some c →
      (Filters.erosion ⟨3, 3, List.replicate 3 (List.replicate 3 (Color.make 10 10 10 1)), none⟩
        (MinimalView.make 3 3) (Color.make 10 10 10 1) 7 0 (Color.make 10 10 10 1)
        (Color.make 99 0 0 1)).getColor 1 1 = some c) ∧
    (Filters.erosion ⟨3, 3, List.replicate 3 (List.replicate 3 (Color.make 10 10 10 1)), none⟩
      (MinimalView.make 3 3) (Color.make 10 10 10 1) 5 0 (Color.make 10 10 10 1)
      (Color.make 99 0 0 1)).getColor 1 1 = some (Color.make 99 0 0 1)) := by
  refine erosion_3x3_interior _ _ (by decide) (by decide) rfl rfl (by decide) (by decide)
    _ _ _ _ ?_
  intro x y hx hy c hc
  have h0 : ¬((x : ℤ) < 0 ∨ (y : ℤ) < 0) := by push_neg; constructor <;> positivity
  simp only [MinimalView.getColor, if_neg h0, Int.toNat_natCast,
    List.getElem?_replicate, hx, hy, if_pos, if_true] at hc
  have hcval : c = Color.make 10 10 10 1 := (Option.some_inj.mp hc).symm
  subst hcval
  constructor
  · norm_num [Color.isEqual, isKindaSortaEqual, Color.make]
  · norm_num [isKindaSortaEqual, Color.make]

/-! ### Claim C9 -/

theorem getNormalizedColor_a (c : Color) : c.getNormalizedColor.a = c.a := by
  unfold Color.getNormalizedColor
  split <;> rfl

theorem getNormalizedColor_of_255 (c : Color) (hn : c.normalized = false)
    (hr : c.r ≤ 255) (hg : c.g ≤ 255) (hb : c.b ≤ 255) :
    c.getNormalizedColor = ⟨c.r / 255, c.g / 255, c.b / 255, c.a, false, true⟩ := by
  unfold Color.getNormalizedColor xlate255ColorToNormalizedColor
  rw [if_pos hn, if_neg (not_lt.mpr hr), if_neg (not_lt.mpr hg), if_neg (not_lt.mpr hb)]

theorem xlate_to255_roundtrip (q : ℚ) (hden : q.den = 1) (h0 : 0 ≤ q) (h255 : q ≤ 255) :
    ((xlateNormalizedColorTo255Color (q / 255) : ℤ) : ℚ) = q := by
  unfold xlateNormalizedColorTo255Color
  have h1 : ¬(q / 255 < 0) := not_lt.mpr (by positivity)
  have h2 : ¬((1 : ℚ) < q / 255) := by
    rw [not_lt, div_le_one (by norm_num)]
    exact h255
  simp only [h1, if_false, h2]
  rw [div_mul_cancel₀ _ (by norm_num : (255 : ℚ) ≠ 0)]
  conv_lhs => rw [← (Rat.den_eq_one_iff q).mp hden]
  rw [round_intCast]
  exact (Rat.den_eq_one_iff q).mp hden

/-- Claim C9: on a 255-mode destination with integer channels in [0,255] and
alpha in [0,1], `blend` under CROSS with source alpha 0 leaves the
destination's r, g, b and a (and its flags) unchanged, and with source alpha
1 (source itself a 255-mode color with integer channels in range) yields
exactly the source's r, g, b and a. -/
theorem blend_cross_alpha_extremes (dst src : Color) (hn : dst.normalized = false)
    (hrd : dst.r.den = 1) (hr0 : 0 ≤ dst.r) (hr1 : dst.r ≤ 255)
    (hgd : dst.g.den = 1) (hg0 : 0 ≤ dst.g) (hg1 : dst.g ≤ 255)
    (hbd : dst.b.den = 1) (hb0 : 0 ≤ dst.b) (hb1 : dst.b ≤ 255)
    (ha0 : 0 ≤ dst.a) (ha1 : dst.a ≤ 1) :
    (src.a = 0 → dst.blend src BlendOperation.CROSS = dst) ∧
    (src.a = 1 → src.normalized = false →
      src.r.den = 1 → 0 ≤ src.r → src.r ≤ 255 →
      src.g.den = 1 → 0 ≤ src.g → src.g ≤ 255 →
      src.b.den = 1 → 0 ≤ src.b → src.b ≤ 255 →
      (dst.blend src BlendOperation.CROSS).r = src.r ∧
      (dst.blend src BlendOperation.CROSS).g = src.g ∧
      (dst.blend src BlendOperation.CROSS).b = src.b ∧
      (dst.blend src BlendOperation.CROSS).a = src.a) := by
  constructor
  · intro hsa
    unfold Color.blend
    rw [getNormalizedColor_of_255 dst hn hr1 hg1 hb1]
    simp only [getNormalizedColor_a, hsa]
    have hsimp : ∀ q qs : ℚ, q * (1 - 0) + qs * 0 = q := by intro q qs; ring
    simp only [hsimp]
    have hc : ∀ q : ℚ, q ≤ 255 → ¬((1 : ℚ) < q / 255) := by
      intro q hq
      rw [not_lt, div_le_one (by norm_num)]
      exact hq
    simp only [if_neg (hc _ hr1), if_neg (hc _ hg1), if_neg (hc _ hb1),
      if_neg (not_lt.mpr ha1)]
    rw [xlate_to255_roundtrip _ hrd hr0 hr1, xlate_to255_roundtrip _ hgd hg0 hg1,
      xlate_to255_roundtrip _ hbd hb0 hb1]
  · intro hsa hsn hsrd hsr0 hsr1 hsgd hsg0 hsg1 hsbd hsb0 hsb1
    unfold Color.blend
    rw [getNormalizedColor_of_255 dst hn hr1 hg1 hb1,
      getNormalizedColor_of_255 src hsn hsr1 hsg1 hsb1]
    simp only [hsa]
    have hsimp : ∀ q qs : ℚ, q * (1 - 1) + qs * 1 = qs := by intro q qs; ring
    simp only [hsimp]
    have hc : ∀ q : ℚ, q ≤ 255 → ¬((1 : ℚ) < q / 255) := by
      intro q hq
      rw [not_lt, div_le_one (by norm_num)]
      exact hq
    simp only [if_neg (hc _ hsr1), if_neg (hc _ hsg1), if_neg (hc _ hsb1),
      if_neg (lt_irrefl (1 : ℚ))]
    refine ⟨?_, ?_, ?_, ?_⟩
    · exact xlate_to255_roundtrip _ hsrd hsr0 hsr1
    · exact xlate_to255_roundtrip _ hsgd hsg0 hsg1
    · exact xlate_to255_roundtrip _ hsbd hsb0 hsb1
    · trivial

/-- Witness for the C9 theorem at a concrete destination (100,150,200,1/2)
and sources with alpha 0 and 1. -/
theorem blend_cross_alpha_extremes_witness :
    ((Color.make 10 20 30 0).a = 0 →
      (Color.make 100 150 200 (1/2)).blend (Color.make 10 20 30 0) BlendOperation.CROSS =
        Color.make 100 150 200 (1/2)) ∧
    ((Color.make 10 20 30 0).a = 1 → (Color.make 10 20 30 0).normalized = false →
      (Color.make 10 20 30 0).r.den = 1 → 0 ≤ (Color.make 10 20 30 0).r →
      (Color.make 10 20 30 0).r ≤ 255 →
      (Color.make 10 20 30 0).g.den = 1 → 0 ≤ (Color.make 10 20 30 0).g →
      (Color.make 10 20 30 0).g ≤ 255 →
      (Color.make 10 20 30 0).b.den = 1 → 0 ≤ (Color.make 10 20 30 0).b →
      (Color.make 10 20 30 0).b ≤ 255 →
      ((Color.make 100 150 200 (1/2)).blend (Color.make 10 20 30 0) BlendOperation.CROSS).r =
        (Color.make 10 20 30 0).r ∧
      ((Color.make 100 150 200 (1/2)).blend (Color.make 10 20 30 0) BlendOperation.CROSS).g =
        (Color.make 10 20 30 0).g ∧
      ((Color.make 100 150 200 (1/2)).blend (Color.make 10 20 30 0) BlendOperation.CROSS).b =
        (Color.make 10 20 30 0).b ∧
      ((Color.make 100 150 200 (1/2)).blend (Color.make 10 20 30 0) BlendOperation.CROSS).a =
        (Color.make 10 20 30 0).a) :=
  blend_cross_alpha_extremes (Color.make 100 150 200 (1/2)) (Color.make 10 20 30 0)
    rfl rfl (by norm_num [Color.make]) (by norm_num [Color.make])
    rfl (by norm_num [Color.make]) (by norm_num [Color.make])
    rfl (by norm_num [Color.make]) (by norm_num [Color.make])
    (by norm_num [Color.make]) (by norm_num [Color.make])

/-! ### Claim C6 -/

/-- Claim C6: at exact integer coordinates inside the surface, holding a
canonical 255-mode color (integer r,g,b in [0,255], alpha in [0,1], flags
unset), `bilinearInterpolatePixel` returns exactly that pixel's color: the
fractional parts are 0, all four sampled neighbors coincide with the pixel,
and the normalize/combine/clamp/to-255 pipeline is the identity on such a
color. -/
theorem bilinearInterpolatePixel_integer_exact (v : MinimalView) (x y : ℕ)
    (hx : x < v.getWidth) (hy : y < v.getHeight) (c : Color)
    (hc : v.getColor (x : ℤ) (y : ℤ) = some c)
    (hn : c.normalized = false) (ht : c.transparent = false)
    (hrd : c.r.den = 1) (hr0 : 0 ≤ c.r) (hr1 : c.r ≤ 255)
    (hgd : c.g.den = 1) (hg0 : 0 ≤ c.g) (hg1 : c.g ≤ 255)
    (hbd : c.b.den = 1) (hb0 : 0 ≤ c.b) (hb1 : c.b ≤ 255)
    (ha0 : 0 ≤ c.a) (ha1 : c.a ≤ 1) :
    Filters.bilinearInterpolatePixel v (x : ℚ) (y : ℚ) = some c := by
  unfold Filters.bilinearInterpolatePixel
  rw [round_natCast, round_natCast]
  rw [if_neg (not_lt.mpr (Int.natCast_nonneg x)), if_neg (not_lt.mpr (Int.natCast_nonneg y))]
  rw [if_neg (by exact_mod_cast not_lt.mpr (le_of_lt hx)),
    if_neg (by exact_mod_cast not_lt.mpr (le_of_lt hy))]
  rw [Int.ceil_natCast, Int.ceil_natCast, Int.floor_natCast, Int.floor_natCast]
  simp only [hc]
  have hfr : ∀ n : ℕ, ((n : ℚ) - ((n : ℤ) : ℚ)) = 0 := by intro n; push_cast; ring
  simp only [Int.floor_natCast, hfr]
  rw [getNormalizedColor_of_255 c hn hr1 hg1 hb1]
  unfold Color.multiplyNumber Color.addColor
  dsimp only
  have hco : ∀ p q : ℚ, p * (1 - 0) + q * 0 = p := by intro p q; ring
  simp only [hco]
  unfold Color.clamp
  dsimp only
  have hnn : ∀ q : ℚ, 0 ≤ q → ¬(q < 0) := fun q hq => not_lt.mpr hq
  have hle : ∀ q : ℚ, q ≤ 255 → ¬(q / 255 > (1 : ℚ)) := by
    intro q hq
    rw [not_lt, div_le_one (by norm_num)]
    exact hq
  rw [if_pos rfl]
  rw [if_neg (hnn _ (by positivity)), if_neg (hnn _ (by positivity)),
    if_neg (hnn _ (by positivity)), if_neg (hnn _ ha0)]
  rw [if_neg (hle _ hr1), if_neg (hle _ hg1), if_neg (hle _ hb1),
    if_neg (not_lt.mpr ha1)]
  unfold Color.get255Color
  dsimp only
  rw [if_neg (by simp)]
  rw [xlate_to255_roundtrip _ hrd hr0 hr1, xlate_to255_roundtrip _ hgd hg0 hg1,
    xlate_to255_roundtrip _ hbd hb0 hb1]
  obtain ⟨cr, cg, cb, ca, ctr, cno⟩ := c
  simp only at hn ht
  rw [hn, ht]

/-- Witness for the C6 theorem on a concrete 2×2 surface at (1,0). -/
theorem bilinearInterpolatePixel_integer_exact_witness :
    Filters.bilinearInterpolatePixel
      (⟨2, 2, [[Color.make 1 2 3 (1/2), Color.make 4 5 6 1],
               [Color.make 7 8 9 0, Color.make 250 251 252 (3/4)]], none⟩ : MinimalView)
      ((1 : ℕ) : ℚ) ((0 : ℕ) : ℚ) = some (Color.make 4 5 6 1) :=
  bilinearInterpolatePixel_integer_exact _ 1 0 (by decide) (by decide) _
    (by norm_num [MinimalView.getColor, intToNat0, intToNat1]) rfl rfl
    (by norm_num [Color.make]) (by norm_num [Color.make]) (by norm_num [Color.make])
    (by norm_num [Color.make]) (by norm_num [Color.make]) (by norm_num [Color.make])
    (by norm_num [Color.make]) (by norm_num [Color.make]) (by norm_num [Color.make])
    (by norm_num [Color.make]) (by norm_num [Color.make])

/-! ### Claim C3 -/

/-- Claim C3 (counterexample): a freshly constructed `HistogramResult` does
NOT have 257 buckets per channel: `new Array(256+1).join('0')` emits only 256
separator characters, so each channel sequence has exactly 256 counts. -/
theorem histogram_buckets_not_257_counterexample :
    ¬(HistogramResult.init.red.length = 257) := by
  intro hcontra
  rw [show HistogramResult.init.red = List.replicate 256 0 from rfl,
    List.length_replicate] at hcontra
  omega

theorem histStep_red : ∀ (ps : List Color) (h0 : HistogramResult),
    (ps.foldl (fun hres (c : Color) =>
      (⟨bucketIncr hres.red c.r, bucketIncr hres.green c.g, bucketIncr hres.blue c.b,
        bucketIncr hres.alpha ((round (c.a * 255) : ℤ) : ℚ)⟩ : HistogramResult)) h0).red =
    (ps.map (fun c => c.r)).foldl bucketIncr h0.red := by
  intro ps
  induction ps with
  | nil => intro h0; rfl
  | cons hd tl ih => intro h0; simp [ih]

theorem histStep_green : ∀ (ps : List Color) (h0 : HistogramResult),
    (ps.foldl (fun hres (c : Color) =>
      (⟨bucketIncr hres.red c.r, bucketIncr hres.green c.g, bucketIncr hres.blue c.b,
        bucketIncr hres.alpha ((round (c.a * 255) : ℤ) : ℚ)⟩ : HistogramResult)) h0).green =
    (ps.map (fun c => c.g)).foldl bucketIncr h0.green := by
  intro ps
  induction ps with
  | nil => intro h0; rfl
  | cons hd tl ih => intro h0; simp [ih]

theorem histStep_blue : ∀ (ps : List Color) (h0 : HistogramResult),
    (ps.foldl (fun hres (c : Color) =>
      (⟨bucketIncr hres.red c.r, bucketIncr hres.green c.g, bucketIncr hres.blue c.b,
        bucketIncr hres.alpha ((round (c.a * 255) : ℤ) : ℚ)⟩ : HistogramResult)) h0).blue =
    (ps.map (fun c => c.b)).foldl bucketIncr h0.blue := by
  intro ps
  induction ps with
  | nil => intro h0; rfl
  | cons hd tl ih => intro h0; simp [ih]

theorem histStep_alpha : ∀ (ps : List Color) (h0 : HistogramResult),
    (ps.foldl (fun hres (c : Color) =>
      (⟨bucketIncr hres.red c.r, bucketIncr hres.green c.g, bucketIncr hres.blue c.b,
        bucketIncr hres.alpha ((round (c.a * 255) : ℤ) : ℚ)⟩ : HistogramResult)) h0).alpha =
    (ps.map (fun c => ((round (c.a * 255) : ℤ) : ℚ))).foldl bucketIncr h0.alpha := by
  intro ps
  induction ps with
  | nil => intro h0; rfl
  | cons hd tl ih => intro h0; simp [ih]

theorem histogram_eq_pixel_fold (v : MinimalView) :
    Filters.histogram v = (viewPixels v).foldl
      (fun hres (c : Color) =>
        (⟨bucketIncr hres.red c.r, bucketIncr hres.green c.g, bucketIncr hres.blue c.b,
          bucketIncr hres.alpha ((round (c.a * 255) : ℤ) : ℚ)⟩ : HistogramResult))
      HistogramResult.init := by
  unfold Filters.histogram viewPixels
  suffices hgen : ∀ (L : List (ℕ × ℕ)) (s0 : HistogramResult),
      L.foldl (fun h xy =>
        match v.getColor (xy.1 : ℤ) (xy.2 : ℤ) with
        | none => h
        | some oColor =>
          (⟨bucketIncr h.red oColor.r, bucketIncr h.green oColor.g,
            bucketIncr h.blue oColor.b,
            bucketIncr h.alpha ((round (oColor.a * 255) : ℤ) : ℚ)⟩ : HistogramResult)) s0 =
      (L.filterMap (fun p => v.getColor (p.1 : ℤ) (p.2 : ℤ))).foldl
        (fun hres (c : Color) =>
          (⟨bucketIncr hres.red c.r, bucketIncr hres.green c.g, bucketIncr hres.blue c.b,
            bucketIncr hres.alpha ((round (c.a * 255) : ℤ) : ℚ)⟩ : HistogramResult)) s0 by
    exact hgen _ _
  intro L
  induction L with
  | nil => intro s0; rfl
  | cons hd tl ih =>
    intro s0
    rw [List.foldl_cons, List.filterMap_cons]
    cases hf : v.getColor (hd.1 : ℤ) (hd.2 : ℤ) with
    | none => simpa [hf] using ih _
    | some b => simp [hf, ih]

theorem bucketIncr_fold_spec : ∀ (qs : List ℚ) (l : List ℕ),
    (∀ q ∈ qs, ∃ n : ℕ, n < l.length ∧ q = (n : ℚ)) →
    (qs.foldl bucketIncr l).length = l.length ∧
    ∀ i : ℕ, (qs.foldl bucketIncr l).getD i 0 =
      l.getD i 0 + qs.countP (fun q => decide (q = (i : ℚ))) := by
  intro qs
  induction qs with
  | nil => intro l _; exact ⟨rfl, fun i => by simp⟩
  | cons q tl ih =>
    intro l hq
    obtain ⟨n, hn, hqn⟩ := hq q (List.mem_cons_self _ _)
    have hset : bucketIncr l q = l.set n (l.getD n 0 + 1) := by
      unfold bucketIncr
      rw [if_pos]
      · rw [hqn]
        simp [Rat.num_natCast]
      · rw [hqn]
        refine ⟨by simp [Rat.num_natCast], by simp [Rat.den_natCast], ?_⟩
        simpa [Rat.num_natCast] using hn
    have htl : ∀ q2 ∈ tl, ∃ m : ℕ, m < (bucketIncr l q).length ∧ q2 = (m : ℚ) := by
      intro q2 hq2
      obtain ⟨m, hm, hqm⟩ := hq q2 (List.mem_cons_of_mem _ hq2)
      exact ⟨m, by rw [hset, List.length_set]; exact hm, hqm⟩
    obtain ⟨ihlen, ihspec⟩ := ih (bucketIncr l q) htl
    constructor
    · rw [List.foldl_cons, ihlen, hset, List.length_set]
    · intro i
      rw [List.foldl_cons, ihspec i, hset]
      rw [List.countP_cons]
      have hgd : (l.set n (l.getD n 0 + 1)).getD i 0 =
          if n = i then l.getD n 0 + 1 else l.getD i 0 := by
        rw [List.getD_eq_getElem?_getD, List.getElem?_set]
        by_cases hni : n = i
        · subst hni
          rw [if_pos rfl, if_pos hn]
          simp [List.getD_eq_getElem?_getD]
        · rw [if_neg hni, ← List.getD_eq_getElem?_getD, if_neg hni]
      rw [hgd]
      by_cases hni : n = i
      · subst hni
        have : (decide (q = (n : ℚ))) = true := by rw [hqn]; simp
        rw [if_pos rfl, this]
        simp only [if_true]
        omega
      · have : (decide (q = (i : ℚ))) = false := by
          rw [hqn]
          simp only [decide_eq_false_iff_not]
          exact_mod_cast fun hcontra => hni (by exact_mod_cast hcontra)
        rw [if_neg hni, this]
        simp only [Bool.false_eq_true, if_false]
        omega

theorem init_length_red : HistogramResult.init.red.length = 256 := by
  rw [show HistogramResult.init.red = List.replicate 256 0 from rfl, List.length_replicate]

theorem init_length_green : HistogramResult.init.green.length = 256 := by
  rw [show HistogramResult.init.green = List.replicate 256 0 from rfl, List.length_replicate]

theorem init_length_blue : HistogramResult.init.blue.length = 256 := by
  rw [show HistogramResult.init.blue = List.replicate 256 0 from rfl, List.length_replicate]

theorem init_length_alpha : HistogramResult.init.alpha.length = 256 := by
  rw [show HistogramResult.init.alpha = List.replicate 256 0 from rfl, List.length_replicate]

theorem replicate_getD_zero (n i : ℕ) : (List.replicate n (0 : ℕ)).getD i 0 = 0 := by
  rw [List.getD_eq_getElem?_getD, List.getElem?_replicate]
  split <;> rfl

theorem sumHistogram_lengths (hres : HistogramResult) :
    (Filters.sumHistogram hres).red.length = 256 ∧
    (Filters.sumHistogram hres).green.length = 256 ∧
    (Filters.sumHistogram hres).blue.length = 256 ∧
    (Filters.sumHistogram hres).alpha.length = 256 := by
  unfold Filters.sumHistogram
  refine foldl_invariant
    (fun st : (ℕ × ℕ × ℕ × ℕ) × HistogramResult =>
      st.2.red.length = 256 ∧ st.2.green.length = 256 ∧
      st.2.blue.length = 256 ∧ st.2.alpha.length = 256)
    (List.range hres.red.length) _ ?_ _
    ⟨init_length_red, init_length_green, init_length_blue, init_length_alpha⟩
  intro s a _ hp
  refine ⟨?_, ?_, ?_, ?_⟩ <;> simp only [List.length_set] <;> tauto

theorem rat_bucket_index (q : ℚ) (hden : q.den = 1) (h0 : 0 ≤ q) (h255 : q ≤ 255) :
    ∃ n : ℕ, n < 256 ∧ q = (n : ℚ) := by
  refine ⟨q.num.toNat, ?_, ?_⟩
  · have hnum : (q.num : ℚ) = q := (Rat.den_eq_one_iff q).mp hden
    have : q.num ≤ 255 := by
      rw [← hnum] at h255
      exact_mod_cast h255
    omega
  · have hnum : (q.num : ℚ) = q := (Rat.den_eq_one_iff q).mp hden
    have hge : 0 ≤ q.num := Rat.num_nonneg.mpr h0
    rw [← hnum]
    norm_cast
    omega

/-- Claim C3 (amended): every `HistogramResult` — as freshly constructed, as
returned by `histogram`, and as returned by `sumHistogram` — consists of four
parallel sequences of exactly 256 non-negative integer counts (indices 0 to
255; the `new Array(256+1).join('0')` idiom produces 256 zeros, not 257), the
fresh one all-zero; and on a surface whose pixels are in-range 255-mode
colors, `histogram` increments, per non-absent pixel, exactly the buckets
`red[r]`, `green[g]`, `blue[b]` and `alpha[round(a*255)]`: bucket `i` of each
channel ends up holding the number of pixels whose channel value is `i`. -/
theorem histogram_result_256_buckets (v : MinimalView)
    (hpix : ∀ c ∈ viewPixels v,
      c.r.den = 1 ∧ 0 ≤ c.r ∧ c.r ≤ 255 ∧
      c.g.den = 1 ∧ 0 ≤ c.g ∧ c.g ≤ 255 ∧
      c.b.den = 1 ∧ 0 ≤ c.b ∧ c.b ≤ 255 ∧
      0 ≤ c.a ∧ c.a ≤ 1) :
    (HistogramResult.init.red.length = 256 ∧ HistogramResult.init.green.length = 256 ∧
     HistogramResult.init.blue.length = 256 ∧ HistogramResult.init.alpha.length = 256 ∧
     ∀ i : ℕ, HistogramResult.init.red.getD i 0 = 0 ∧
       HistogramResult.init.green.getD i 0 = 0 ∧
       HistogramResult.init.blue.getD i 0 = 0 ∧
       HistogramResult.init.alpha.getD i 0 = 0) ∧
    ((Filters.histogram v).red.length = 256 ∧ (Filters.histogram v).green.length = 256 ∧
     (Filters.histogram v).blue.length = 256 ∧ (Filters.histogram v).alpha.length = 256) ∧
    (∀ i : ℕ,
      (Filters.histogram v).red.getD i 0 =
        (viewPixels v).countP (fun c => decide (c.r = (i : ℚ))) ∧
      (Filters.histogram v).green.getD i 0 =
        (viewPixels v).countP (fun c => decide (c.g = (i : ℚ))) ∧
      (Filters.histogram v).blue.getD i 0 =
        (viewPixels v).countP (fun c => decide (c.b = (i : ℚ))) ∧
      (Filters.histogram v).alpha.getD i 0 =
        (viewPixels v).countP (fun c => decide (round (c.a * 255) = (i : ℤ)))) ∧
    (∀ hres : HistogramResult, (Filters.sumHistogram hres).red.length = 256 ∧
      (Filters.sumHistogram hres).green.length = 256 ∧
      (Filters.sumHistogram hres).blue.length = 256 ∧
      (Filters.sumHistogram hres).alpha.length = 256) := by
  have hfold := histogram_eq_pixel_fold v
  have hred := histStep_red (viewPixels v) HistogramResult.init
  have hgreen := histStep_green (viewPixels v) HistogramResult.init
  have hblue := histStep_blue (viewPixels v) HistogramResult.init
  have halpha := histStep_alpha (viewPixels v) HistogramResult.init
  have hqr : ∀ q ∈ (viewPixels v).map (fun c => c.r),
      ∃ n : ℕ, n < HistogramResult.init.red.length ∧ q = (n : ℚ) := by
    intro q hq
    obtain ⟨c, hc, rfl⟩ := List.mem_map.mp hq
    obtain ⟨h1, h2, h3, _⟩ := hpix c hc
    rw [init_length_red]
    exact rat_bucket_index _ h1 h2 h3
  have hqg : ∀ q ∈ (viewPixels v).map (fun c => c.g),
      ∃ n : ℕ, n < HistogramResult.init.green.length ∧ q = (n : ℚ) := by
    intro q hq
    obtain ⟨c, hc, rfl⟩ := List.mem_map.mp hq
    obtain ⟨_, _, _, h1, h2, h3, _⟩ := hpix c hc
    rw [init_length_green]
    exact rat_bucket_index _ h1 h2 h3
  have hqb : ∀ q ∈ (viewPixels v).map (fun c => c.b),
      ∃ n : ℕ, n < HistogramResult.init.blue.length ∧ q = (n : ℚ) := by
    intro q hq
    obtain ⟨c, hc, rfl⟩ := List.mem_map.mp hq
    obtain ⟨_, _, _, _, _, _, h1, h2, h3, _⟩ := hpix c hc
    rw [init_length_blue]
    exact rat_bucket_index _ h1 h2 h3
  have hround : ∀ c : Color, c ∈ viewPixels v →
      0 ≤ round (c.a * 255) ∧ round (c.a * 255) ≤ 255 := by
    intro c hc
    obtain ⟨_, _, _, _, _, _, _, _, _, ha0, ha1⟩ := hpix c hc
    constructor
    · have h1 : (0 : ℚ) ≤ c.a * 255 := by positivity
      rw [round_eq]
      refine Int.le_floor.mpr ?_
      push_cast
      linarith
    · have h1 : c.a * 255 ≤ 255 := by nlinarith
      have := Int.floor_le_floor (α := ℚ) (show c.a * 255 + 1/2 ≤ (255:ℚ) + 1/2 by linarith)
      have h2 : ⌊(255 : ℚ) + 1/2⌋ = 255 := by norm_num
      rw [round_eq, ← h2]
      exact this
  have hqa : ∀ q ∈ (viewPixels v).map (fun c => ((round (c.a * 255) : ℤ) : ℚ)),
      ∃ n : ℕ, n < HistogramResult.init.alpha.length ∧ q = (n : ℚ) := by
    intro q hq
    obtain ⟨c, hc, rfl⟩ := List.mem_map.mp hq
    obtain ⟨hr0, hr255⟩ := hround c hc
    rw [init_length_alpha]
    refine ⟨(round (c.a * 255)).toNat, by omega, ?_⟩
    exact_mod_cast (Int.toNat_of_nonneg hr0).symm
  obtain ⟨hlenr, hspecr⟩ := bucketIncr_fold_spec _ _ hqr
  obtain ⟨hleng, hspecg⟩ := bucketIncr_fold_spec _ _ hqg
  obtain ⟨hlenb, hspecb⟩ := bucketIncr_fold_spec _ _ hqb
  obtain ⟨hlena, hspeca⟩ := bucketIncr_fold_spec _ _ hqa
  refine ⟨⟨init_length_red, init_length_green, init_length_blue, init_length_alpha,
    fun i => ⟨replicate_getD_zero _ _, replicate_getD_zero _ _,
      replicate_getD_zero _ _, replicate_getD_zero _ _⟩⟩, ?_, ?_, sumHistogram_lengths⟩
  · rw [hfold, hred, hgreen, hblue, halpha, hlenr, hleng, hlenb, hlena]
    exact ⟨init_length_red, init_length_green, init_length_blue, init_length_alpha⟩
  · intro i
    rw [hfold, hred, hgreen, hblue, halpha, hspecr i, hspecg i, hspecb i, hspeca i]
    simp only [show HistogramResult.init.red = List.replicate 256 0 from rfl,
      show HistogramResult.init.green = List.replicate 256 0 from rfl,
      show HistogramResult.init.blue = List.replicate 256 0 from rfl,
      show HistogramResult.init.alpha = List.replicate 256 0 from rfl,
      replicate_getD_zero, Nat.zero_add]
    refine ⟨?_, ?_, ?_, ?_⟩
    · rw [List.countP_map]
      rfl
    · rw [List.countP_map]
      rfl
    · rw [List.countP_map]
      rfl
    · rw [List.countP_map]
      refine List.countP_congr ?_
      intro c _
      simp only [Function.comp, decide_eq_true_eq]
      constructor
      · intro hcast
        exact_mod_cast hcast
      · intro hcast
        exact_mod_cast hcast

/-- Witness for the amended C3 theorem on a concrete 1×1 surface holding
(10,20,30,1). -/
theorem histogram_result_256_buckets_witness :
    (HistogramResult.init.red.length = 256 ∧ HistogramResult.init.green.length = 256 ∧
     HistogramResult.init.blue.length = 256 ∧ HistogramResult.init.alpha.length = 256 ∧
     ∀ i : ℕ, HistogramResult.init.red.getD i 0 = 0 ∧
       HistogramResult.init.green.getD i 0 = 0 ∧
       HistogramResult.init.blue.getD i 0 = 0 ∧
       HistogramResult.init.alpha.getD i 0 = 0) ∧
    ((Filters.histogram ⟨1, 1, [[Color.make 10 20 30 1]], none⟩).red.length = 256 ∧
     (Filters.histogram ⟨1, 1, [[Color.make 10 20 30 1]], none⟩).green.length = 256 ∧
     (Filters.histogram ⟨1, 1, [[Color.make 10 20 30 1]], none⟩).blue.length = 256 ∧
     (Filters.histogram ⟨1, 1, [[Color.make 10 20 30 1]], none⟩).alpha.length = 256) ∧
    (∀ i : ℕ,
      (Filters.histogram ⟨1, 1, [[Color.make 10 20 30 1]], none⟩).red.getD i 0 =
        (viewPixels ⟨1, 1, [[Color.make 10 20 30 1]], none⟩).countP
          (fun c => decide (c.r = (i : ℚ))) ∧
      (Filters.histogram ⟨1, 1, [[Color.make 10 20 30 1]], none⟩).green.getD i 0 =
        (viewPixels ⟨1, 1, [[Color.make 10 20 30 1]], none⟩).countP
          (fun c => decide (c.g = (i : ℚ))) ∧
      (Filters.histogram ⟨1, 1, [[Color.make 10 20 30 1]], none⟩).blue.getD i 0 =
        (viewPixels ⟨1, 1, [[Color.make 10 20 30 1]], none⟩).countP
          (fun c => decide (c.b = (i : ℚ))) ∧
      (Filters.histogram ⟨1, 1, [[Color.make 10 20 30 1]], none⟩).alpha.getD i 0 =
        (viewPixels ⟨1, 1, [[Color.make 10 20 30 1]], none⟩).countP
          (fun c => decide (round (c.a * 255) = (i : ℤ)))) ∧
    (∀ hres : HistogramResult, (Filters.sumHistogram hres).red.length = 256 ∧
      (Filters.sumHistogram hres).green.length = 256 ∧
      (Filters.sumHistogram hres).blue.length = 256 ∧
      (Filters.sumHistogram hres).alpha.length = 256) := by
  refine histogram_result_256_buckets ⟨1, 1, [[Color.make 10 20 30 1]], none⟩ ?_
  intro c hc
  simp only [viewPixels, coordList, MinimalView.getWidth, MinimalView.getHeight,
    List.range_succ, List.range_zero, List.nil_append, List.flatMap_cons,
    List.flatMap_nil, List.map_cons, List.map_nil, List.append_nil,
    List.filterMap_cons, List.filterMap_nil, Nat.cast_zero] at hc
  rw [show (⟨1, 1, [[Color.make 10 20 30 1]], none⟩ : MinimalView).getColor 0 0 =
      some (Color.make 10 20 30 1) from rfl] at hc
  simp only [List.mem_cons, List.not_mem_nil, or_false] at hc
  subst hc
  norm_num [Color.make]

/-! ### Claims C7 and C8: digit and parsing lemmas -/

theorem charDigit_digitChar (d : ℕ) (h : d < 10) : charDigit (digitChar d) = some d := by
  interval_cases d <;> decide

theorem digitChar_ne_special (d : ℕ) (h : d < 10) :
    digitChar d ≠ Char.ofNat 59 ∧ digitChar d ≠ Char.ofNat 44 ∧
    digitChar d ≠ Char.ofNat 46 ∧ digitChar d ≠ Char.ofNat 45 ∧
    digitChar d ≠ Char.ofNat 110 := by
  interval_cases d <;> exact ⟨by decide, by decide, by decide, by decide, by decide⟩

theorem takeDigits_nondigit (c : Char) (h : charDigit c = none) (l : List Char) :
    takeDigits (c :: l) = ([], c :: l) := by
  unfold takeDigits
  rw [h]

theorem takeDigits_digits_append (ds : List ℕ) (h : ∀ d ∈ ds, d < 10) :
    ∀ rest : List Char,
      takeDigits (ds.map digitChar ++ rest) =
        (ds ++ (takeDigits rest).1, (takeDigits rest).2) := by
  induction ds with
  | nil => intro rest; simp
  | cons d tl ih =>
    intro rest
    have hd : d < 10 := h d (List.mem_cons_self _ _)
    have htl : ∀ d2 ∈ tl, d2 < 10 := fun d2 h2 => h d2 (List.mem_cons_of_mem _ h2)
    rw [List.map_cons, List.cons_append]
    conv_lhs => rw [takeDigits]
    rw [charDigit_digitChar d hd]
    simp [ih htl rest]

theorem digitsToNat_append_one (l : List ℕ) (d : ℕ) :
    digitsToNat (l ++ [d]) = 10 * digitsToNat l + d := by
  unfold digitsToNat
  rw [List.foldl_append]
  simp [Nat.mul_comm]

theorem digitsToNat_reverse_digits (n : ℕ) :
    digitsToNat ((Nat.digits 10 n).reverse) = n := by
  conv_rhs => rw [← Nat.ofDigits_digits 10 n]
  generalize Nat.digits 10 n = l
  induction l with
  | nil => rfl
  | cons d tl ih =>
    rw [List.reverse_cons, digitsToNat_append_one, ih, Nat.ofDigits_cons]
    push_cast
    omega

theorem digitsToNat_replicate_zero (m : ℕ) (l : List ℕ) :
    digitsToNat (List.replicate m 0 ++ l) = digitsToNat l := by
  induction m with
  | zero => rfl
  | succ k ih =>
    rw [List.replicate_succ, List.cons_append]
    unfold digitsToNat
    rw [List.foldl_cons]
    exact ih

theorem natToChars_spec (n : ℕ) :
    ∃ ds : List ℕ, natToChars n = ds.map digitChar ∧ (∀ d ∈ ds, d < 10) ∧
      digitsToNat ds = n ∧ ds ≠ [] := by
  unfold natToChars
  by_cases hn : n = 0
  · subst hn
    exact ⟨[0], by simp [digitChar], by simp, rfl, by simp⟩
  · rw [if_neg hn]
    refine ⟨(Nat.digits 10 n).reverse, rfl, ?_, ?_, ?_⟩
    · intro d hd
      exact Nat.digits_lt_base (by norm_num) (List.mem_reverse.mp hd)
    · exact digitsToNat_reverse_digits n
    · simp only [ne_eq, List.reverse_eq_nil_iff]
      exact Nat.digits_ne_nil_iff_ne_zero.mpr hn

theorem natToChars_cons (n : ℕ) :
    ∃ d : ℕ, d < 10 ∧ ∃ rest : List Char, natToChars n = digitChar d :: rest := by
  obtain ⟨ds, hmap, hlt, _, hne⟩ := natToChars_spec n
  cases ds with
  | nil => exact absurd rfl hne
  | cons d tl =>
    exact ⟨d, hlt d (List.mem_cons_self _ _), tl.map digitChar, by rw [hmap, List.map_cons]⟩

theorem natToChars_chars (n : ℕ) :
    ∀ c ∈ natToChars n, ∃ d : ℕ, d < 10 ∧ c = digitChar d := by
  obtain ⟨ds, hmap, hlt, _, _⟩ := natToChars_spec n
  intro c hc
  rw [hmap] at hc
  obtain ⟨d, hd, rfl⟩ := List.mem_map.mp hc
  exact ⟨d, hlt d hd, rfl⟩

theorem natToChars_length_le (n k : ℕ) (hk : 1 ≤ k) (h : n < 10 ^ k) :
    (natToChars n).length ≤ k := by
  unfold natToChars
  by_cases hn : n = 0
  · simp [hn, hk]
  · rw [if_neg hn]
    rw [List.length_map, List.length_reverse]
    rw [Nat.digits_len 10 n (by norm_num) hn]
    have := Nat.log_lt_of_lt_pow hn h
    omega

theorem parseIntJS_natToChars (n : ℕ) : parseIntJS (natToChars n) = some (n : ℤ) := by
  obtain ⟨ds, hmap, hlt, hval, hne⟩ := natToChars_spec n
  rw [hmap]
  cases ds with
  | nil => exact absurd rfl hne
  | cons d tl =>
    rw [List.map_cons]
    unfold parseIntJS
    dsimp only
    rw [if_neg ((digitChar_ne_special d (hlt d (List.mem_cons_self _ _))).2.2.2.1)]
    have htd : takeDigits (digitChar d :: List.map digitChar tl) = (d :: tl, []) := by
      have := takeDigits_digits_append (d :: tl) hlt []
      simpa [takeDigits] using this
    rw [htd]
    dsimp only
    rw [hval]

theorem charDigit_dot : charDigit (Char.ofNat 46) = none := by decide

theorem decExp_spec (q : ℚ) (hfin : (q * 10 ^ q.den).den = 1) :
    (q * 10 ^ decExp q).den = 1 := by
  unfold decExp
  cases hfind : (List.range (q.den + 1)).find? (fun k => (q * 10 ^ k).den = 1) with
  | some k =>
    have := List.find?_some hfind
    simpa using this
  | none =>
    exfalso
    have hall := List.find?_eq_none.mp hfind
    exact absurd (by simpa using hfin) (by simpa using hall q.den (by
      rw [List.mem_range]; omega))

theorem decExp_of_den_one (q : ℚ) (hden : q.den = 1) : decExp q = 0 := by
  unfold decExp
  rw [List.range_succ_eq_map, List.find?_cons_of_pos]
  simp [hden]

theorem nonnegRatToChars_cons (q : ℚ) :
    ∃ d : ℕ, d < 10 ∧ ∃ rest : List Char, nonnegRatToChars q = digitChar d :: rest := by
  unfold nonnegRatToChars
  by_cases hk : decExp q = 0
  · rw [hk, if_pos rfl]
    exact natToChars_cons _
  · rw [if_neg hk]
    obtain ⟨d, hd, rest, hrest⟩ := natToChars_cons ((q * 10 ^ decExp q).num.toNat / 10 ^ decExp q)
    refine ⟨d, hd, rest ++ Char.ofNat 46 :: padDigits (decExp q)
      ((q * 10 ^ decExp q).num.toNat % 10 ^ decExp q), ?_⟩
    dsimp only
    rw [hrest, List.cons_append]

theorem nonnegRatToChars_chars (q : ℚ) :
    ∀ c ∈ nonnegRatToChars q, (∃ d : ℕ, d < 10 ∧ c = digitChar d) ∨ c = Char.ofNat 46 := by
  unfold nonnegRatToChars
  intro c hc
  by_cases hk : decExp q = 0
  · rw [hk, if_pos rfl] at hc
    exact Or.inl (natToChars_chars _ c hc)
  · rw [if_neg hk] at hc
    rcases List.mem_append.mp hc with hmem | hmem
    · exact Or.inl (natToChars_chars _ c hmem)
    · rcases List.mem_cons.mp hmem with heq | hmem2
      · exact Or.inr heq
      · unfold padDigits at hmem2
        rcases List.mem_append.mp hmem2 with hmem3 | hmem3
        · rw [List.eq_of_mem_replicate hmem3]
          exact Or.inl ⟨0, by norm_num, rfl⟩
        · exact Or.inl (natToChars_chars _ c hmem3)

theorem ratToChars_chars (q : ℚ) :
    ∀ c ∈ ratToChars q, (∃ d : ℕ, d < 10 ∧ c = digitChar d) ∨ c = Char.ofNat 46 ∨
      c = Char.ofNat 45 := by
  unfold ratToChars
  intro c hc
  by_cases hq : q < 0
  · rw [if_pos hq] at hc
    rcases List.mem_cons.mp hc with heq | hmem
    · exact Or.inr (Or.inr heq)
    · rcases nonnegRatToChars_chars _ c hmem with h1 | h1
      · exact Or.inl h1
      · exact Or.inr (Or.inl h1)
  · rw [if_neg hq] at hc
    rcases nonnegRatToChars_chars _ c hc with h1 | h1
    · exact Or.inl h1
    · exact Or.inr (Or.inl h1)

theorem ratToChars_not_sep (q : ℚ) :
    Char.ofNat 59 ∉ ratToChars q ∧ Char.ofNat 44 ∉ ratToChars q := by
  constructor
  · intro hmem
    rcases ratToChars_chars q _ hmem with ⟨d, hd, heq⟩ | heq | heq
    · exact (digitChar_ne_special d hd).1 heq.symm
    · exact absurd heq.symm (by decide)
    · exact absurd heq.symm (by decide)
  · intro hmem
    rcases ratToChars_chars q _ hmem with ⟨d, hd, heq⟩ | heq | heq
    · exact (digitChar_ne_special d hd).2.1 heq.symm
    · exact absurd heq.symm (by decide)
    · exact absurd heq.symm (by decide)

theorem ratToChars_ne_null (q : ℚ) : ratToChars q ≠ nullChars := by
  intro hcontra
  have hhead : ∃ c rest, ratToChars q = c :: rest ∧ c ≠ Char.ofNat 110 := by
    unfold ratToChars
    by_cases hq : q < 0
    · rw [if_pos hq]
      exact ⟨_, _, rfl, by decide⟩
    · rw [if_neg hq]
      obtain ⟨d, hd, rest, hrest⟩ := nonnegRatToChars_cons q
      exact ⟨_, _, hrest, (digitChar_ne_special d hd).2.2.2.2⟩
  obtain ⟨c, rest, heq, hne⟩ := hhead
  rw [heq] at hcontra
  unfold nullChars at hcontra
  exact hne (by injection hcontra)

theorem parseFloatJS_nonnegRatToChars (q : ℚ) (h0 : 0 ≤ q)
    (hfin : (q * 10 ^ q.den).den = 1) :
    parseFloatJS (nonnegRatToChars q) = some q := by
  have hspec := decExp_spec q hfin
  unfold parseFloatJS
  obtain ⟨d0, hd0, rest0, hcons⟩ := nonnegRatToChars_cons q
  rw [hcons]
  dsimp only
  rw [if_neg ((digitChar_ne_special d0 hd0).2.2.2.1)]
  rw [← hcons]
  by_cases hk : decExp q = 0
  · have hden : q.den = 1 := by
      rw [hk] at hspec
      simpa using hspec
    unfold nonnegRatToChars
    rw [hk, if_pos rfl]
    obtain ⟨ds, hmap, hlt, hval, hne⟩ := natToChars_spec q.num.toNat
    rw [hmap]
    have htd : takeDigits (List.map digitChar ds) = (ds, []) := by
      have := takeDigits_digits_append ds hlt []
      simpa [takeDigits] using this
    rw [htd]
    dsimp only
    rw [if_neg hne, hval]
    have hq : (q.num : ℚ) = q := (Rat.den_eq_one_iff q).mp hden
    have hnum : 0 ≤ q.num := Rat.num_nonneg.mpr h0
    congr 1
    rw [← hq]
    exact_mod_cast congrArg (fun z : ℤ => ((z : ℤ) : ℚ)) (Int.toNat_of_nonneg hnum)
  · unfold nonnegRatToChars
    rw [if_neg hk]
    set k := decExp q with hkdef
    set scaled := (q * 10 ^ k).num.toNat with hscaled
    obtain ⟨dsi, hmapi, hlti, hvali, hnei⟩ := natToChars_spec (scaled / 10 ^ k)
    obtain ⟨dsf, hmapf, hltf, hvalf, hnef⟩ := natToChars_spec (scaled % 10 ^ k)
    have hpadlen : (natToChars (scaled % 10 ^ k)).length ≤ k := by
      refine natToChars_length_le _ _ (by omega) ?_
      exact Nat.mod_lt _ (Nat.pos_pow_of_pos k (by norm_num))
    have hpad : padDigits k (scaled % 10 ^ k) =
        (List.replicate (k - (natToChars (scaled % 10 ^ k)).length) 0 ++ dsf).map digitChar := by
      unfold padDigits
      rw [List.map_append, List.map_replicate, hmapf]
      rfl
    have hrest : takeDigits (natToChars (scaled / 10 ^ k) ++
        Char.ofNat 46 :: padDigits k (scaled % 10 ^ k)) =
        (dsi, Char.ofNat 46 :: padDigits k (scaled % 10 ^ k)) := by
      rw [hmapi, takeDigits_digits_append dsi hlti,
        takeDigits_nondigit _ charDigit_dot]
      simp
    rw [hrest]
    dsimp only
    rw [if_pos rfl]
    have hfr : takeDigits (padDigits k (scaled % 10 ^ k)) =
        (List.replicate (k - (natToChars (scaled % 10 ^ k)).length) 0 ++ dsf, []) := by
      rw [hpad]
      have hall : ∀ d ∈ List.replicate (k - (natToChars (scaled % 10 ^ k)).length) 0 ++ dsf,
          d < 10 := by
        intro d hd
        rcases List.mem_append.mp hd with hmem | hmem
        · rw [List.eq_of_mem_replicate hmem]; norm_num
        · exact hltf d hmem
      have := takeDigits_digits_append _ hall []
      have hnil : takeDigits ([] : List Char) = ([], []) := rfl
      simpa [hnil] using this
    rw [hfr]
    dsimp only
    rw [if_neg (by
      intro hcontra
      exact hnei hcontra.1)]
    congr 1
    rw [digitsToNat_replicate_zero, hvali, hvalf]
    have hlen : (List.replicate (k - (natToChars (scaled % 10 ^ k)).length) 0 ++ dsf).length
        = k := by
      rw [List.length_append, List.length_replicate]
      have : dsf.length = (natToChars (scaled % 10 ^ k)).length := by
        rw [hmapf, List.length_map]
      omega
    rw [hlen]
    have hnum0 : 0 ≤ (q * 10 ^ k).num := by
      refine Rat.num_nonneg.mpr ?_
      positivity
    have hcast : ((scaled : ℕ) : ℚ) = q * 10 ^ k := by
      rw [hscaled]
      rw [show (((q * 10 ^ k).num.toNat : ℕ) : ℚ) = (((q * 10 ^ k).num.toNat : ℤ) : ℚ) by
        push_cast; ring]
      rw [Int.toNat_of_nonneg hnum0]
      exact (Rat.den_eq_one_iff _).mp hspec
    have hdm := Nat.div_add_mod scaled (10 ^ k)
    have hpow : ((10 : ℚ) ^ k) ≠ 0 := by positivity
    field_simp
    have hcast2 : ((scaled / 10 ^ k : ℕ) : ℚ) * 10 ^ k + ((scaled % 10 ^ k : ℕ) : ℚ) =
        ((scaled : ℕ) : ℚ) := by
      have h := congrArg (fun n : ℕ => ((n : ℕ) : ℚ)) hdm
      push_cast at h
      linarith [h]
    rw [hcast] at hcast2
    linarith [hcast2]

theorem parseFloatJS_ratToChars (q : ℚ) (hfin : (q * 10 ^ q.den).den = 1) :
    parseFloatJS (ratToChars q) = some q := by
  unfold ratToChars
  by_cases hq : q < 0
  · rw [if_pos hq]
    have hneg : (-q * 10 ^ (-q).den).den = 1 := by
      rw [Rat.neg_den] at *
      rw [show -q * 10 ^ q.den = -(q * 10 ^ q.den) by ring]
      rw [Rat.neg_den]
      exact hfin
    have hcore := parseFloatJS_nonnegRatToChars (-q) (by linarith) hneg
    unfold parseFloatJS at hcore ⊢
    dsimp only
    rw [if_pos rfl]
    obtain ⟨d0, hd0, rest0, hcons⟩ := nonnegRatToChars_cons (-q)
    rw [hcons] at hcore ⊢
    dsimp only at hcore
    rw [if_neg ((digitChar_ne_special d0 hd0).2.2.2.1)] at hcore
    rw [hcore]
    simp
  · rw [if_neg hq]
    exact parseFloatJS_nonnegRatToChars q (by linarith) hfin

theorem parseIntJS_ratToChars_int (q : ℚ) (hden : q.den = 1) :
    parseIntJS (ratToChars q) = some q.num := by
  unfold ratToChars
  by_cases hq : q < 0
  · rw [if_pos hq]
    unfold nonnegRatToChars
    have hnden : (-q).den = 1 := by rw [Rat.neg_den]; exact hden
    rw [decExp_of_den_one _ hnden, if_pos rfl]
    obtain ⟨ds, hmap, hlt, hval, hne⟩ := natToChars_spec (-q).num.toNat
    rw [hmap]
    unfold parseIntJS
    dsimp only
    rw [if_pos rfl]
    have htd : takeDigits (List.map digitChar ds) = (ds, []) := by
      have := takeDigits_digits_append ds hlt []
      simpa [takeDigits] using this
    rw [htd]
    cases ds with
    | nil => exact absurd rfl hne
    | cons d tl =>
      dsimp only
      rw [hval]
      congr 1
      have hnum : q.num < 0 := Rat.num_neg.mpr hq
      rw [Rat.neg_num]
      rw [Int.toNat_of_nonneg (by omega)]
      ring
  · rw [if_neg hq]
    unfold nonnegRatToChars
    rw [decExp_of_den_one _ hden, if_pos rfl]
    rw [parseIntJS_natToChars]
    congr 1
    have hnum : 0 ≤ q.num := Rat.num_nonneg.mpr (by linarith)
    exact Int.toNat_of_nonneg hnum

/-! ### Claims C7 and C8: split lemmas -/

theorem jsSplit_nil (sep : Char) : jsSplit sep [] = [[]] := rfl

theorem jsSplit_no_sep (sep : Char) : ∀ l : List Char, sep ∉ l → jsSplit sep l = [l] := by
  intro l
  induction l with
  | nil => intro _; rfl
  | cons c rest ih =>
    intro hmem
    rw [List.mem_cons] at hmem
    push_neg at hmem
    conv_lhs => rw [jsSplit]
    rw [if_neg (fun hc => hmem.1 hc.symm)]
    rw [ih hmem.2]

theorem jsSplit_append (sep : Char) : ∀ (a rest : List Char), sep ∉ a →
    jsSplit sep (a ++ sep :: rest) = a :: jsSplit sep rest := by
  intro a
  induction a with
  | nil =>
    intro rest _
    rw [List.nil_append]
    conv_lhs => rw [jsSplit]
    rw [if_pos rfl]
  | cons c a2 ih =>
    intro rest hmem
    rw [List.mem_cons] at hmem
    push_neg at hmem
    rw [List.cons_append]
    conv_lhs => rw [jsSplit]
    rw [if_neg (fun hc => hmem.1 hc.symm)]
    rw [ih rest hmem.2]

theorem jsSplit_join_groups (sep : Char) : ∀ gs : List (List Char), (∀ g ∈ gs, sep ∉ g) →
    jsSplit sep ((gs.map (fun g => g ++ [sep])).flatten) = gs ++ [[]] := by
  intro gs
  induction gs with
  | nil => intro _; rfl
  | cons g tl ih =>
    intro hmem
    rw [List.map_cons, List.flatten_cons, List.append_assoc, List.singleton_append]
    rw [jsSplit_append sep g _ (hmem g (List.mem_cons_self _ _))]
    rw [ih (fun g2 h2 => hmem g2 (List.mem_cons_of_mem _ h2))]
    rfl

theorem pixelChars_assoc (c : Color) :
    pixelChars c = ratToChars c.r ++ Char.ofNat 44 ::
      (ratToChars c.g ++ Char.ofNat 44 :: (ratToChars c.b ++ Char.ofNat 44 ::
        ratToChars c.a)) := by
  unfold pixelChars
  simp [List.append_assoc]

theorem pixelChars_split (c : Color) :
    jsSplit (Char.ofNat 44) (pixelChars c) =
      [ratToChars c.r, ratToChars c.g, ratToChars c.b, ratToChars c.a] := by
  rw [pixelChars_assoc]
  rw [jsSplit_append _ _ _ (ratToChars_not_sep c.r).2]
  rw [jsSplit_append _ _ _ (ratToChars_not_sep c.g).2]
  rw [jsSplit_append _ _ _ (ratToChars_not_sep c.b).2]
  rw [jsSplit_no_sep _ _ (ratToChars_not_sep c.a).2]

theorem pixelChars_no_semi (c : Color) : Char.ofNat 59 ∉ pixelChars c := by
  rw [pixelChars_assoc]
  intro hmem
  have hcomma : (Char.ofNat 59) ≠ Char.ofNat 44 := by decide
  rcases List.mem_append.mp hmem with h1 | h1
  · exact (ratToChars_not_sep c.r).1 h1
  · rcases List.mem_cons.mp h1 with h2 | h2
    · exact hcomma h2
    · rcases List.mem_append.mp h2 with h3 | h3
      · exact (ratToChars_not_sep c.g).1 h3
      · rcases List.mem_cons.mp h3 with h4 | h4
        · exact hcomma h4
        · rcases List.mem_append.mp h4 with h5 | h5
          · exact (ratToChars_not_sep c.b).1 h5
          · rcases List.mem_cons.mp h5 with h6 | h6
            · exact hcomma h6
            · exact (ratToChars_not_sep c.a).1 h6

theorem pixelChars_applies (c : Color) : groupApplies (pixelChars c) := by
  unfold groupApplies
  rw [pixelChars_split]
  exact ⟨rfl, ratToChars_ne_null c.r⟩

theorem groupColor_pixelChars (c : Color) (hrd : c.r.den = 1) (hgd : c.g.den = 1)
    (hbd : c.b.den = 1) (hfa : (c.a * 10 ^ c.a.den).den = 1)
    (ht : c.transparent = false) (hn : c.normalized = false) :
    groupColor (pixelChars c) = c := by
  unfold groupColor
  rw [pixelChars_split]
  simp only [List.getD_cons_zero, List.getD_cons_succ]
  rw [parseIntJS_ratToChars_int _ hrd, parseIntJS_ratToChars_int _ hgd,
    parseIntJS_ratToChars_int _ hbd, parseFloatJS_ratToChars _ hfa]
  simp only [Option.getD_some]
  obtain ⟨cr, cg, cb, ca, ctr, cno⟩ := c
  simp only at ht hn hrd hgd hbd ⊢
  rw [ht, hn]
  rw [(Rat.den_eq_one_iff _).mp hrd, (Rat.den_eq_one_iff _).mp hgd,
    (Rat.den_eq_one_iff _).mp hbd]

/-! ### Claims C7 and C8: the pixel-loop characterization -/

theorem cursor_mod_eq_zero (a w : ℕ) (hw : 0 < w) (hc : (a % w + 1) % w = 0) :
    (a + 1) % w = 0 ∧ (a + 1) / w = a / w + 1 := by
  have hdm := Nat.div_add_mod a w
  have h1 : a % w < w := Nat.mod_lt _ hw
  have hc2 : a % w + 1 = w := by
    by_cases hlt : a % w + 1 < w
    · rw [Nat.mod_eq_of_lt hlt] at hc
      omega
    · omega
  have h2 : (a + 1) / w = a / w + 1 ∧ (a + 1) % w = 0 := by
    rw [Nat.div_mod_unique hw]
    have hexp : w * (a / w + 1) = w * (a / w) + w := by ring
    exact ⟨by omega, hw⟩
  exact ⟨h2.2, h2.1⟩

theorem cursor_mod_ne_zero (a w : ℕ) (hw : 0 < w) (hc : ¬((a % w + 1) % w = 0)) :
    (a + 1) % w = a % w + 1 ∧ (a + 1) / w = a / w := by
  have hdm := Nat.div_add_mod a w
  have h1 : a % w < w := Nat.mod_lt _ hw
  have hlt : a % w + 1 < w := by
    by_cases hlt : a % w + 1 < w
    · exact hlt
    · exfalso
      have hc2 : a % w + 1 = w := by omega
      rw [hc2, Nat.mod_self] at hc
      exact hc rfl
  have h2 : (a + 1) / w = a / w ∧ (a + 1) % w = a % w + 1 := by
    rw [Nat.div_mod_unique hw]
    exact ⟨by omega, hlt⟩
  exact ⟨h2.2, h2.1⟩

theorem imageFromString_loop_get (w h : ℕ) (hw : 0 < w) :
    ∀ (gs : List (List Char)) (a : ℕ) (t : MinimalView),
      t.wf → t.width = w → t.height = h →
      a + (gs.filter (fun g => decide (groupApplies g))).length ≤ w * h →
      ∀ x y : ℕ, x < w → y < h →
        ((gs.foldl (imageFromStringStep w) (a % w, a / w, t)).2.2).getColor (x : ℤ) (y : ℤ) =
          if a ≤ y * w + x ∧
              y * w + x < a + (gs.filter (fun g => decide (groupApplies g))).length then
            some (groupColor ((gs.filter (fun g => decide (groupApplies g))).getD
              (y * w + x - a) []))
          else t.getColor (x : ℤ) (y : ℤ) := by
  intro gs
  induction gs with
  | nil =>
    intro a t hwf htw hth hbound x y hx hy
    simp only [List.filter_nil, List.length_nil, List.foldl_nil]
    rw [if_neg (by omega)]
  | cons g tl ih =>
    intro a t hwf htw hth hbound x y hx hy
    rw [List.foldl_cons]
    by_cases hg : groupApplies g
    · have hfl : ((g :: tl).filter (fun g2 => decide (groupApplies g2))).length =
          (tl.filter (fun g2 => decide (groupApplies g2))).length + 1 := by
        rw [List.filter_cons_of_pos (by simpa using hg)]
        rfl
      have hflcons : (g :: tl).filter (fun g2 => decide (groupApplies g2)) =
          g :: tl.filter (fun g2 => decide (groupApplies g2)) :=
        List.filter_cons_of_pos (by simpa using hg)
      have haw : a < w * h := by omega
      have hmodlt : a % w < w := Nat.mod_lt _ hw
      have hdivlt : a / w < h := by
        rw [Nat.div_lt_iff_lt_mul hw, Nat.mul_comm]
        omega
      have hstep : imageFromStringStep w (a % w, a / w, t) g =
          ((a + 1) % w, (a + 1) / w,
            t.setColor ((a % w : ℕ) : ℤ) ((a / w : ℕ) : ℤ) (some (groupColor g))) := by
        have hg2 : (jsSplit (Char.ofNat 44) g).length = 4 ∧
            (jsSplit (Char.ofNat 44) g).getD 0 [] ≠ nullChars := hg
        simp only [imageFromStringStep]
        rw [if_pos hg2]
        split
        · rename_i hc
          obtain ⟨hm, hd⟩ := cursor_mod_eq_zero a w hw hc
          rw [hm, hd]
          rfl
        · rename_i hc
          obtain ⟨hm, hd⟩ := cursor_mod_ne_zero a w hw hc
          rw [hm, hd]
          rfl
      rw [hstep]
      have hwf2 : (t.setColor ((a % w : ℕ) : ℤ) ((a / w : ℕ) : ℤ)
          (some (groupColor g))).wf := setColor_wf _ _ _ _ hwf
      have htw2 : (t.setColor ((a % w : ℕ) : ℤ) ((a / w : ℕ) : ℤ)
          (some (groupColor g))).width = w := by rw [setColor_width]; exact htw
      have hth2 : (t.setColor ((a % w : ℕ) : ℤ) ((a / w : ℕ) : ℤ)
          (some (groupColor g))).height = h := by rw [setColor_height]; exact hth
      rw [ih (a + 1) _ hwf2 htw2 hth2 (by omega) x y hx hy]
      by_cases h2 : a + 1 ≤ y * w + x ∧
          y * w + x < (a + 1) + (tl.filter (fun g2 => decide (groupApplies g2))).length
      · rw [if_pos h2, if_pos (by omega), hflcons]
        have hsub : y * w + x - a = (y * w + x - (a + 1)) + 1 := by omega
        rw [hsub, List.getD_cons_succ]
      · rw [if_neg h2]
        by_cases h3 : y * w + x = a
        · have hxa : x = a % w ∧ y = a / w := by
            have := (Nat.div_mod_unique hw).mpr
              (⟨by rw [Nat.mul_comm]; omega, hx⟩ : x + w * y = a ∧ x < w)
            exact ⟨this.2.symm, this.1.symm⟩
          rw [if_pos (by omega)]
          obtain ⟨hxx, hyy⟩ := hxa
          subst hxx
          subst hyy
          rw [getColor_setColor_self t _ _ _ hwf (htw ▸ hmodlt) (hth ▸ hdivlt)]
          rw [hflcons, h3]
          rw [Nat.sub_self, List.getD_cons_zero]
        · rw [if_neg (by omega)]
          refine getColor_setColor_ne t _ _ _ _ _ ?_
          by_cases hxx : (x : ℤ) = ((a % w : ℕ) : ℤ)
          · right
            intro hyy
            refine h3 ?_
            have hx2 : x = a % w := by exact_mod_cast hxx
            have hy2 : y = a / w := by exact_mod_cast hyy
            have hdm := Nat.div_add_mod a w
            subst hx2
            subst hy2
            rw [Nat.mul_comm]
            omega
          · exact Or.inl hxx
    · have hstep : imageFromStringStep w (a % w, a / w, t) g = (a % w, a / w, t) := by
        have hg2 : ¬((jsSplit (Char.ofNat 44) g).length = 4 ∧
            (jsSplit (Char.ofNat 44) g).getD 0 [] ≠ nullChars) := hg
        simp only [imageFromStringStep]
        rw [if_neg hg2]
      have hflcons : (g :: tl).filter (fun g2 => decide (groupApplies g2)) =
          tl.filter (fun g2 => decide (groupApplies g2)) :=
        List.filter_cons_of_neg (by simpa using hg)
      rw [hstep, hflcons]
      exact ih a t hwf htw hth (by rw [hflcons] at hbound; exact hbound) x y hx hy

theorem coordListYX_length (w h : ℕ) : (coordListYX w h).length = h * w := by
  unfold coordListYX
  rw [List.length_flatMap]
  have hgen : ∀ L : List ℕ,
      (L.map (fun y => ((List.range w).map (fun x => (x, y))).length)).sum = L.length * w := by
    intro L
    induction L with
    | nil => simp
    | cons a tl ih =>
      rw [List.map_cons, List.sum_cons, ih, List.length_cons]
      rw [List.length_map, List.length_range]
      ring
  rw [Function.comp_def, hgen, List.length_range]

theorem coordListYX_getD (w h x y : ℕ) (hx : x < w) (hy : y < h) :
    (coordListYX w h).getD (y * w + x) (0, 0) = (x, y) := by
  induction h with
  | zero => omega
  | succ h ih =>
    have hsucc : coordListYX w (h + 1) =
        coordListYX w h ++ (List.range w).map (fun x => (x, h)) := by
      unfold coordListYX
      rw [List.range_succ, List.flatMap_append]
      simp
    rw [hsucc]
    by_cases hyh : y < h
    · have hidx : y * w + x < (coordListYX w h).length := by
        rw [coordListYX_length]
        have h1 : y * w + x < (y + 1) * w := by
          rw [Nat.succ_mul]
          omega
        have h2 : (y + 1) * w ≤ h * w := Nat.mul_le_mul_right w hyh
        omega
      rw [List.getD_append _ _ _ _ hidx]
      exact ih hyh
    · have hyeq : y = h := by omega
      subst hyeq
      have hlen : (coordListYX w y).length ≤ y * w + x := by
        rw [coordListYX_length]
        omega
      rw [List.getD_append_right _ _ _ _ hlen, coordListYX_length]
      have hsub : y * w + x - y * w = x := by omega
      rw [hsub]
      rw [List.getD_eq_getElem _ _ (by simpa using hx)]
      simp

theorem filterMap_eq_map_of_all_some {α β : Type} (b0 : β) (f : α → Option β) :
    ∀ l : List α, (∀ a ∈ l, (f a).isSome) → l.filterMap f = l.map (fun a => (f a).getD b0) := by
  intro l
  induction l with
  | nil => intro _; rfl
  | cons a tl ih =>
    intro hall
    rw [List.filterMap_cons, List.map_cons]
    cases hf : f a with
    | none =>
      have := hall a (List.mem_cons_self _ _)
      rw [hf] at this
      exact absurd this (by simp)
    | some b =>
      rw [ih (fun a2 h2 => hall a2 (List.mem_cons_of_mem _ h2))]
      simp [hf]

theorem imageToString_structure (v : MinimalView) :
    v.imageToString = natToChars v.getWidth ++ Char.ofNat 59 ::
      (natToChars v.getHeight ++ Char.ofNat 59 ::
        ((viewPixelsRowMajor v).map (fun c => pixelChars c ++ [Char.ofNat 59])).flatten) := by
  have hrow : ∀ (yLoop : ℕ) (l : List ℕ) (acc2 : List Char),
      l.foldl (fun acc2 (xLoop : ℕ) =>
        match v.getColor (xLoop : ℤ) (yLoop : ℤ) with
        | none => acc2
        | some oColor => acc2 ++ pixelChars oColor ++ [Char.ofNat 59]) acc2 =
      acc2 ++ ((l.filterMap (fun (xLoop : ℕ) => v.getColor (xLoop : ℤ) (yLoop : ℤ))).map
        (fun c => pixelChars c ++ [Char.ofNat 59])).flatten := by
    intro yLoop l
    induction l with
    | nil => intro acc2; simp
    | cons x tl ih =>
      intro acc2
      rw [List.foldl_cons, List.filterMap_cons]
      cases hc : v.getColor (x : ℤ) (yLoop : ℤ) with
      | none => simpa [hc] using ih _
      | some c =>
        rw [ih]
        simp [List.append_assoc]
  have hbody : ∀ (L : List ℕ) (acc : List Char),
      L.foldl (fun acc (yLoop : ℕ) =>
        (List.range v.getWidth).foldl (fun acc2 (xLoop : ℕ) =>
          match v.getColor (xLoop : ℤ) (yLoop : ℤ) with
          | none => acc2
          | some oColor => acc2 ++ pixelChars oColor ++ [Char.ofNat 59]) acc) acc =
      acc ++ (L.map (fun (yLoop : ℕ) =>
        (((List.range v.getWidth).filterMap
            (fun (xLoop : ℕ) => v.getColor (xLoop : ℤ) (yLoop : ℤ))).map
          (fun c => pixelChars c ++ [Char.ofNat 59])).flatten)).flatten := by
    intro L
    induction L with
    | nil => intro acc; simp
    | cons yl tl ih =>
      intro acc
      rw [List.foldl_cons]
      rw [hrow]
      rw [ih]
      rw [List.map_cons, List.flatten_cons, List.append_assoc]
  have h2 := (hbody (List.range v.getHeight) []).trans (by rw [List.nil_append])
  have h3 : v.imageToString =
      (natToChars v.getWidth ++ (Char.ofNat 59 :: natToChars v.getHeight)) ++
        (Char.ofNat 59 :: ((List.range v.getHeight).map (fun (yLoop : ℕ) =>
          (((List.range v.getWidth).filterMap
              (fun (xLoop : ℕ) => v.getColor (xLoop : ℤ) (yLoop : ℤ))).map
            (fun c => pixelChars c ++ [Char.ofNat 59])).flatten)).flatten) :=
    congrArg (fun z => (natToChars v.getWidth ++ (Char.ofNat 59 :: natToChars v.getHeight)) ++
      (Char.ofNat 59 :: z)) h2
  rw [h3]
  have hTarget : ((viewPixelsRowMajor v).map (fun c => pixelChars c ++ [Char.ofNat 59])).flatten =
      ((List.range v.getHeight).map (fun (yLoop : ℕ) =>
        (((List.range v.getWidth).filterMap
            (fun (xLoop : ℕ) => v.getColor (xLoop : ℤ) (yLoop : ℤ))).map
          (fun c => pixelChars c ++ [Char.ofNat 59])).flatten)).flatten := by
    unfold viewPixelsRowMajor coordListYX
    have hgen : ∀ (L : List ℕ),
        (((L.flatMap (fun y => (List.range v.getWidth).map (fun x => (x, y)))).filterMap
            (fun (p : ℕ × ℕ) => v.getColor (p.1 : ℤ) (p.2 : ℤ))).map
          (fun c => pixelChars c ++ [Char.ofNat 59])).flatten =
        (L.map (fun (yLoop : ℕ) =>
          (((List.range v.getWidth).filterMap
              (fun (xLoop : ℕ) => v.getColor (xLoop : ℤ) (yLoop : ℤ))).map
            (fun c => pixelChars c ++ [Char.ofNat 59])).flatten)).flatten := by
      intro L
      induction L with
      | nil => rfl
      | cons yl tl ih =>
        rw [List.flatMap_cons, List.filterMap_append, List.map_append, List.flatten_append, ih,
          List.filterMap_map]
        rfl
    exact hgen _
  rw [hTarget]
  simp [List.append_assoc]

theorem natToChars_no_semi (n : ℕ) : Char.ofNat 59 ∉ natToChars n := by
  intro hmem
  obtain ⟨d, hd, heq⟩ := natToChars_chars n _ hmem
  exact (digitChar_ne_special d hd).1 heq.symm

theorem imageFromString_groups (w h : ℕ) (gs : List (List Char))
    (hsep : ∀ g ∈ gs, Char.ofNat 59 ∉ g) (hlen : gs.length = w * h)
    (t : MinimalView) (hwf : t.wf) (htw : t.width = w) (hth : t.height = h)
    (x y : ℕ) (hx : x < w) (hy : y < h) :
    (t.imageFromString (natToChars w ++ Char.ofNat 59 ::
        (natToChars h ++ Char.ofNat 59 ::
          (gs.map (fun g => g ++ [Char.ofNat 59])).flatten))).getColor (x : ℤ) (y : ℤ) =
      if y * w + x < (gs.filter (fun g => decide (groupApplies g))).length then
        some (groupColor ((gs.filter (fun g => decide (groupApplies g))).getD (y * w + x) []))
      else t.getColor (x : ℤ) (y : ℤ) := by
  have hw : 0 < w := lt_of_le_of_lt (Nat.zero_le x) hx
  have hh : 0 < h := lt_of_le_of_lt (Nat.zero_le y) hy
  obtain ⟨d0, hd0, r0, hr0⟩ := natToChars_cons w
  have hne : natToChars w ++ Char.ofNat 59 ::
      (natToChars h ++ Char.ofNat 59 ::
        (gs.map (fun g => g ++ [Char.ofNat 59])).flatten) ≠ [] := by
    rw [hr0]
    simp
  have hsplit : jsSplit (Char.ofNat 59) (natToChars w ++ Char.ofNat 59 ::
      (natToChars h ++ Char.ofNat 59 ::
        (gs.map (fun g => g ++ [Char.ofNat 59])).flatten)) =
      natToChars w :: natToChars h :: (gs ++ [[]]) := by
    rw [jsSplit_append _ _ _ (natToChars_no_semi w),
      jsSplit_append _ _ _ (natToChars_no_semi h),
      jsSplit_join_groups _ _ hsep]
  simp only [MinimalView.imageFromString]
  rw [if_neg hne, hsplit]
  have hlen3 : (natToChars w :: natToChars h :: (gs ++ [[]])).length = gs.length + 3 := by
    simp
  rw [if_neg (by rw [hlen3]; omega)]
  have hg0 : (natToChars w :: natToChars h :: (gs ++ [[]])).getD 0 [] = natToChars w := rfl
  have hg1 : (natToChars w :: natToChars h :: (gs ++ [[]])).getD 1 [] = natToChars h := rfl
  rw [hg0, hg1, parseIntJS_natToChars w, parseIntJS_natToChars h]
  dsimp only
  rw [if_neg (by
    push_neg
    exact ⟨by exact_mod_cast hw.ne', by exact_mod_cast hh.ne'⟩)]
  have hgw : t.getWidth = w := by unfold MinimalView.getWidth; exact htw
  have hgh : t.getHeight = h := by unfold MinimalView.getHeight; exact hth
  rw [if_neg (by push_neg; rw [hgw, hgh]; exact ⟨rfl, rfl⟩)]
  rw [if_neg (by push_neg; rw [hlen3, hlen]; push_cast; ring)]
  have htoNat : ((w : ℤ) * (h : ℤ)).toNat = w * h := by
    rw [show ((w : ℤ) * (h : ℤ)) = ((w * h : ℕ) : ℤ) from by push_cast; ring,
      Int.toNat_natCast]
  have htoNatW : ((w : ℤ)).toNat = w := Int.toNat_natCast w
  rw [htoNat, htoNatW]
  have hmap : (List.range (w * h)).map
      (fun (loop : ℕ) => (natToChars w :: natToChars h :: (gs ++ [[]])).getD (loop + 2) []) =
      gs := by
    apply List.ext_getElem
    · simp [hlen]
    · intro i h1 h2
      simp only [List.getElem_map, List.getElem_range]
      have hgi : (natToChars w :: natToChars h :: (gs ++ [[]])).getD (i + 2) [] =
          (gs ++ [[]]).getD i [] := rfl
      rw [hgi, List.getD_append _ _ _ _ h2]
      exact List.getD_eq_getElem _ _ h2
  have hfm := List.foldl_map
    (fun (loop : ℕ) => (natToChars w :: natToChars h :: (gs ++ [[]])).getD (loop + 2) [])
    (imageFromStringStep w) (List.range (w * h)) ((0, 0, t) : ℕ × ℕ × MinimalView)
  rw [hmap] at hfm
  rw [← hfm]
  have h0 : ((0 : ℕ), (0 : ℕ), t) = (0 % w, 0 / w, t) := by rw [Nat.zero_mod, Nat.zero_div]
  rw [h0]
  rw [imageFromString_loop_get w h hw gs 0 t hwf htw hth
    (by simpa [hlen] using List.length_filter_le _ gs) x y hx hy]
  simp only [Nat.zero_le, true_and, Nat.zero_add, Nat.sub_zero]

theorem mem_coordListYX (w h : ℕ) (p : ℕ × ℕ) :
    p ∈ coordListYX w h ↔ p.1 < w ∧ p.2 < h := by
  unfold coordListYX
  simp only [List.mem_flatMap, List.mem_map, List.mem_range]
  constructor
  · rintro ⟨a, ha, x2, hx2, rfl⟩
    exact ⟨hx2, ha⟩
  · intro hp
    exact ⟨p.2, hp.2, p.1, hp.1, rfl⟩

theorem viewPixelsRowMajor_map (v : MinimalView) (hwf : v.wf) :
    viewPixelsRowMajor v = (coordListYX v.width v.height).map
      (fun p => (v.getColor (p.1 : ℤ) (p.2 : ℤ)).getD (Color.mk 0 0 0 0 false false)) := by
  unfold viewPixelsRowMajor
  apply filterMap_eq_map_of_all_some
  intro p hp
  rw [mem_coordListYX] at hp
  obtain ⟨c, hc⟩ := getColor_eq_some v p.1 p.2 hwf hp.1 hp.2
  show (v.getColor (p.1 : ℤ) (p.2 : ℤ)).isSome = true
  rw [hc]
  rfl

/-- Claim C7: serializing a surface with `imageToString` and reading the string
back with `imageFromString` onto a same-sized surface reproduces every pixel of
the original, for well-formed surfaces with no absent pixels whose colors are
canonical 255-mode pixels: integer `r`, `g`, `b` and a finitely-representable
decimal alpha (every JS float has one), with `transparent`/`normalized` unset
as `new Color(r,g,b,a)` leaves them. -/
theorem image_string_roundtrip (v t : MinimalView) (hvwf : v.wf) (htwf : t.wf)
    (hW : t.width = v.width) (hH : t.height = v.height)
    (hpix : ∀ x y : ℕ, x < v.width → y < v.height → ∀ c : Color,
      v.getColor (x : ℤ) (y : ℤ) = some c →
        c.r.den = 1 ∧ c.g.den = 1 ∧ c.b.den = 1 ∧ (c.a * 10 ^ c.a.den).den = 1 ∧
        c.transparent = false ∧ c.normalized = false) :
    ∀ x y : ℕ, x < v.width → y < v.height →
      (t.imageFromString v.imageToString).getColor (x : ℤ) (y : ℤ) =
        v.getColor (x : ℤ) (y : ℤ) := by
  intro x y hx hy
  have hvr := viewPixelsRowMajor_map v hvwf
  have hgslen : ((viewPixelsRowMajor v).map pixelChars).length = v.width * v.height := by
    rw [List.length_map, hvr, List.length_map, coordListYX_length]
    exact Nat.mul_comm _ _
  have hsep : ∀ g ∈ (viewPixelsRowMajor v).map pixelChars, Char.ofNat 59 ∉ g := by
    intro g hg
    obtain ⟨c, _, rfl⟩ := List.mem_map.mp hg
    exact pixelChars_no_semi c
  have hgs : ((viewPixelsRowMajor v).map pixelChars).map (fun g => g ++ [Char.ofNat 59]) =
      (viewPixelsRowMajor v).map (fun c => pixelChars c ++ [Char.ofNat 59]) := by
    rw [List.map_map]
    rfl
  have hpay : v.imageToString = natToChars v.width ++ Char.ofNat 59 ::
      (natToChars v.height ++ Char.ofNat 59 ::
        (((viewPixelsRowMajor v).map pixelChars).map
          (fun g => g ++ [Char.ofNat 59])).flatten) := by
    rw [imageToString_structure v, ← hgs]
    rfl
  rw [hpay]
  rw [imageFromString_groups v.width v.height ((viewPixelsRowMajor v).map pixelChars)
    hsep hgslen t htwf hW hH x y hx hy]
  have hfilter : ((viewPixelsRowMajor v).map pixelChars).filter
      (fun g => decide (groupApplies g)) = (viewPixelsRowMajor v).map pixelChars := by
    apply List.filter_eq_self.mpr
    intro g hg
    obtain ⟨c, _, rfl⟩ := List.mem_map.mp hg
    exact decide_eq_true (pixelChars_applies c)
  rw [hfilter]
  have hidx : y * v.width + x < v.height * v.width := by
    have h1 : y * v.width + x < (y + 1) * v.width := by
      rw [Nat.succ_mul]
      omega
    have h2 : (y + 1) * v.width ≤ v.height * v.width := Nat.mul_le_mul_right _ hy
    omega
  have hidx2 : y * v.width + x < v.width * v.height := by
    rw [Nat.mul_comm v.width v.height]
    exact hidx
  rw [if_pos (by rw [hgslen]; exact hidx2)]
  have hcoordlen : y * v.width + x < (coordListYX v.width v.height).length := by
    rw [coordListYX_length]
    exact hidx
  have hco : (coordListYX v.width v.height).get ⟨y * v.width + x, hcoordlen⟩ = (x, y) := by
    have h1 := coordListYX_getD v.width v.height x y hx hy
    rw [List.getD_eq_getElem _ _ hcoordlen] at h1
    simpa using h1
  have hgetd : ((viewPixelsRowMajor v).map pixelChars).getD (y * v.width + x) [] =
      pixelChars ((v.getColor (x : ℤ) (y : ℤ)).getD (Color.mk 0 0 0 0 false false)) := by
    rw [hvr, List.map_map]
    rw [List.getD_eq_getElem _ _
      (by rw [List.length_map, coordListYX_length]; exact hidx)]
    rw [List.getElem_map]
    have h1 := coordListYX_getD v.width v.height x y hx hy
    rw [List.getD_eq_getElem _ _ hcoordlen] at h1
    rw [h1]
    rfl
  rw [hgetd]
  obtain ⟨c, hc⟩ := getColor_eq_some v x y hvwf hx hy
  obtain ⟨h1, h2, h3, h4, h5, h6⟩ := hpix x y hx hy c hc
  rw [hc]
  simp only [Option.getD_some]
  rw [groupColor_pixelChars c h1 h2 h3 h4 h5 h6]

theorem image_string_roundtrip_witness :
    ((⟨1, 1, [[Color.mk 10 20 30 1 false false]], none⟩ : MinimalView).wf ∧
     (⟨1, 1, [[Color.mk 0 0 0 0 false false]], none⟩ : MinimalView).wf ∧
     (0 : ℕ) < (⟨1, 1, [[Color.mk 10 20 30 1 false false]], none⟩ : MinimalView).width) ∧
    (MinimalView.imageFromString
        (⟨1, 1, [[Color.mk 0 0 0 0 false false]], none⟩ : MinimalView)
        (MinimalView.imageToString
          (⟨1, 1, [[Color.mk 10 20 30 1 false false]], none⟩ : MinimalView))).getColor
        ((0 : ℕ) : ℤ) ((0 : ℕ) : ℤ) =
      (⟨1, 1, [[Color.mk 10 20 30 1 false false]], none⟩ : MinimalView).getColor
        ((0 : ℕ) : ℤ) ((0 : ℕ) : ℤ) := by
  refine ⟨⟨by decide, by decide, by decide⟩, ?_⟩
  refine image_string_roundtrip
    (⟨1, 1, [[Color.mk 10 20 30 1 false false]], none⟩ : MinimalView)
    (⟨1, 1, [[Color.mk 0 0 0 0 false false]], none⟩ : MinimalView)
    (by decide) (by decide) rfl rfl ?_ 0 0 (by decide) (by decide)
  intro x y hx hy c hc
  have hx1 : x < 1 := hx
  have hy1 : y < 1 := hy
  have hx0 : x = 0 := by omega
  have hy0 : y = 0 := by omega
  subst hx0
  subst hy0
  have hcc : (⟨1, 1, [[Color.mk 10 20 30 1 false false]], none⟩ : MinimalView).getColor
      ((0 : ℕ) : ℤ) ((0 : ℕ) : ℤ) = some (Color.mk 10 20 30 1 false false) := rfl
  rw [hcc] at hc
  obtain rfl : Color.mk 10 20 30 1 false false = c := Option.some.inj hc
  refine ⟨by norm_num, by norm_num, by norm_num, ?_, rfl, rfl⟩
  norm_num

/-- Claim C8 (corrected): for an accepted payload, the pixel-group tokens are
processed in payload order but the write cursor advances ONLY when a group is
applied: a group whose comma-split does not have exactly 4 fields, or whose
first field is literally `"null"`, is skipped WITHOUT advancing the cursor.
Hence each applied group lands at the row-major coordinate given by its index
among the APPLIED groups (groups after a skipped one shift back to fill its
slot), not at the coordinate of its own position in the payload, and the
trailing pixels beyond the number of applied groups keep their prior values. -/
theorem imageFromString_null_groups (w h : ℕ) (gs : List (List Char))
    (hsep : ∀ g ∈ gs, Char.ofNat 59 ∉ g) (hlen : gs.length = w * h)
    (t : MinimalView) (hwf : t.wf) (htw : t.width = w) (hth : t.height = h)
    (x y : ℕ) (hx : x < w) (hy : y < h) :
    (t.imageFromString (natToChars w ++ Char.ofNat 59 ::
        (natToChars h ++ Char.ofNat 59 ::
          (gs.map (fun g => g ++ [Char.ofNat 59])).flatten))).getColor (x : ℤ) (y : ℤ) =
      if y * w + x < (gs.filter (fun g => decide (groupApplies g))).length then
        some (groupColor
          ((gs.filter (fun g => decide (groupApplies g))).getD (y * w + x) []))
      else t.getColor (x : ℤ) (y : ℤ) :=
  imageFromString_groups w h gs hsep hlen t hwf htw hth x y hx hy

theorem imageFromString_null_groups_witness :
    ((⟨2, 1, [[Color.mk 1 2 3 1 false false, Color.mk 4 5 6 1 false false]], none⟩ :
        MinimalView).wf ∧
      [("null,0,0,0").data, ("9,9,9,1").data].length = 2 * 1) ∧
    ((⟨2, 1, [[Color.mk 1 2 3 1 false false, Color.mk 4 5 6 1 false false]], none⟩ :
        MinimalView).imageFromString (natToChars 2 ++ Char.ofNat 59 ::
        (natToChars 1 ++ Char.ofNat 59 ::
          (([("null,0,0,0").data, ("9,9,9,1").data].map
            (fun g => g ++ [Char.ofNat 59])).flatten)))).getColor
        ((0 : ℕ) : ℤ) ((0 : ℕ) : ℤ) =
      if 0 * 2 + 0 < ([("null,0,0,0").data, ("9,9,9,1").data].filter
          (fun g => decide (groupApplies g))).length then
        some (groupColor (([("null,0,0,0").data, ("9,9,9,1").data].filter
          (fun g => decide (groupApplies g))).getD (0 * 2 + 0) []))
      else (⟨2, 1, [[Color.mk 1 2 3 1 false false, Color.mk 4 5 6 1 false false]], none⟩ :
        MinimalView).getColor ((0 : ℕ) : ℤ) ((0 : ℕ) : ℤ) := by
  refine ⟨⟨by decide, by decide⟩, ?_⟩
  exact imageFromString_null_groups 2 1 [("null,0,0,0").data, ("9,9,9,1").data]
    (by decide) (by decide)
    (⟨2, 1, [[Color.mk 1 2 3 1 false false, Color.mk 4 5 6 1 false false]], none⟩ :
      MinimalView)
    (by decide) rfl rfl 0 0 (by decide) (by decide)

/-- Claim C8 counterexample: on a 2x1 surface holding (1,2,3,1),(4,5,6,1), the
accepted payload `"2;1;null,0,0,0;9,9,9,1;"` has a null group at row-major
position 0 and the group `9,9,9,1` at position 1, so the claim predicts that
(0,0) keeps its prior value and (1,0) becomes (9,9,9,1); the code instead does
not advance the cursor over the null group, writes (9,9,9,1) at (0,0), and
leaves (1,0) at its prior value (4,5,6,1). -/
theorem imageFromString_null_shift_counterexample :
    ((⟨2, 1, [[Color.mk 1 2 3 1 false false, Color.mk 4 5 6 1 false false]], none⟩ :
        MinimalView).imageFromString
        (("2;1;null,0,0,0;9,9,9,1;").data)).getColor ((1 : ℕ) : ℤ) ((0 : ℕ) : ℤ) =
      some (Color.mk 4 5 6 1 false false) ∧
    ((⟨2, 1, [[Color.mk 1 2 3 1 false false, Color.mk 4 5 6 1 false false]], none⟩ :
        MinimalView).imageFromString
        (("2;1;null,0,0,0;9,9,9,1;").data)).getColor ((0 : ℕ) : ℤ) ((0 : ℕ) : ℤ) =
      some (Color.mk 9 9 9 1 false false) ∧
    Color.mk 4 5 6 1 false false ≠ Color.mk 9 9 9 1 false false := by
  have hpay : ("2;1;null,0,0,0;9,9,9,1;").data = natToChars 2 ++ Char.ofNat 59 ::
      (natToChars 1 ++ Char.ofNat 59 ::
        (([("null,0,0,0").data, ("9,9,9,1").data].map
          (fun g => g ++ [Char.ofNat 59])).flatten)) := by
    simp [natToChars, digitChar]
  have hfl : [("null,0,0,0").data, ("9,9,9,1").data].filter
      (fun g => decide (groupApplies g)) = [("9,9,9,1").data] := by decide
  have h10 := imageFromString_groups 2 1 [("null,0,0,0").data, ("9,9,9,1").data]
    (by decide) (by decide)
    (⟨2, 1, [[Color.mk 1 2 3 1 false false, Color.mk 4 5 6 1 false false]], none⟩ :
      MinimalView)
    (by decide) rfl rfl 1 0 (by decide) (by decide)
  have h00 := imageFromString_groups 2 1 [("null,0,0,0").data, ("9,9,9,1").data]
    (by decide) (by decide)
    (⟨2, 1, [[Color.mk 1 2 3 1 false false, Color.mk 4 5 6 1 false false]], none⟩ :
      MinimalView)
    (by decide) rfl rfl 0 0 (by decide) (by decide)
  rw [hfl] at h10 h00
  rw [hpay]
  refine ⟨?_, ?_, by decide⟩
  · rw [h10, if_neg (by decide)]
    decide
  · rw [h00, if_pos (by decide)]
    norm_num +decide [groupColor, jsSplit, parseIntJS, parseFloatJS, takeDigits,
      charDigit, digitsToNat, nullChars]
